import Mathlib

/-!
Verification of the static site generator `fast_github_pages_generator.py`.

The development shallowly embeds the program: file-system paths are lists of
name segments (`Path(".")` is `[]`), Python strings are Lean `String`s, and
the `os.walk` traversal consumed by `generate_site` is represented by the
list of `(relative path, child directories, child files)` records it yields,
in visit order.  Side effects (written files, printed error reports) are
collected as an ordered list of events.
-/

set_option maxHeartbeats 1000000

/-- Python `str.lower()` as applied to ASCII file names. -/
def pyLower (s : String) : String := String.mk (s.data.map Char.toLower)

/-- Python `str.upper()` as applied to ASCII file names. -/
def pyUpper (s : String) : String := String.mk (s.data.map Char.toUpper)

/-- Python `s.startswith(pre)`. -/
def pyStartsWith (s pre : String) : Bool := pre.data.isPrefixOf s.data

/-- Python `s.endswith(suf)`. -/
def pyEndsWith (s suf : String) : Bool := suf.data.isSuffixOf s.data

/-- Python `name.rfind('.')`: index of the last dot, `none` standing for -1. -/
def pyRfindDot (l : List Char) : Option Nat :=
  match l.reverse.findIdx? (fun c => c == '.') with
  | some j => some (l.length - 1 - j)
  | none => none

/-- `pathlib.PurePath.suffix` of a plain file name: the part of the name from
the last dot on, provided that dot is neither the first nor the last
character; otherwise the empty string. -/
def pySuffix (s : String) : String :=
  match pyRfindDot s.data with
  | some i => if 0 < i && i < s.data.length - 1 then String.mk (s.data.drop i) else ""
  | none => ""

/-- `pathlib.PurePath.stem` of a plain file name: the name with `pySuffix`
removed. -/
def pyStem (s : String) : String :=
  match pyRfindDot s.data with
  | some i => if 0 < i && i < s.data.length - 1 then String.mk (s.data.take i) else s
  | none => s

/-- Python `"/".join(l)`. -/
def joinSlash : List String → String
  | [] => ""
  | [s] => s
  | s :: rest => s ++ "/" ++ joinSlash rest

/-- Helper for `splitSlash`: accumulates the current segment (reversed). -/
def segsAux (acc : List Char) : List Char → List String
  | [] => [String.mk acc.reverse]
  | c :: cs => if c = '/' then String.mk acc.reverse :: segsAux [] cs else segsAux (c :: acc) cs

/-- The segments of a `/`-separated path string. -/
def splitSlash (s : String) : List String := segsAux [] s.data

/-- Translation of `FastSiteGenerator.get_relative_path_to_root`
(source lines 24-29).  The argument is the list of path segments of
`current_path`; `Path(".")` has no segments. -/
def get_relative_path_to_root (parts : List String) : String :=
  if parts = [] then "."
  else if 0 < parts.length then joinSlash (List.replicate parts.length "..") else "."

/-- The link computed for one breadcrumb ancestor at `levels_up` levels above
the current node (source lines 450-454). -/
def crumbLink (levels_up : Nat) : String :=
  if 0 < levels_up then joinSlash (List.replicate levels_up "..") ++ "/index.html"
  else "index.html"

/-- The anchor markup for the leading Home entry (source line 442). -/
def renderHomeEntry (e : String × String) : String :=
  "<a href=\"" ++ e.2 ++ "\">" ++ e.1 ++ "</a>"

/-- The markup appended for one non-Home breadcrumb entry (source lines
456-458): a separator followed by an anchor. -/
def renderCrumbEntry (e : String × String) : String :=
  " <span style=\"color: #64748b;\">/</span> <a href=\"" ++ e.2 ++ "\">" ++ e.1 ++ "</a>"

/-- The `for i, part in enumerate(parts)` loop of `create_breadcrumb`
(source lines 448-458); `total` is `len(parts)` and `i` the running index. -/
def crumbLoop (total : Nat) (i : Nat) : List String → String
  | [] => ""
  | part :: rest =>
    renderCrumbEntry (part, crumbLink (total - i - 1)) ++ crumbLoop total (i + 1) rest

/-- Translation of `FastSiteGenerator.create_breadcrumb` (source lines
437-460), producing the breadcrumb HTML string for a node whose relative
path has the given segments. -/
def create_breadcrumb (parts : List String) : String :=
  let path_to_root := get_relative_path_to_root parts
  let home := renderHomeEntry ("🏠 Home", path_to_root ++ "/index.html")
  if parts = [] then home else home ++ crumbLoop parts.length 0 parts

/-- The (label, link) pairs produced by the breadcrumb loop. -/
def trailEntries (total : Nat) (i : Nat) : List String → List (String × String)
  | [] => []
  | part :: rest => (part, crumbLink (total - i - 1)) :: trailEntries total (i + 1) rest

/-- The breadcrumb trail of a node as an ordered list of (label, link)
pairs: the Home entry followed by one entry per path segment. -/
def breadcrumbTrail (parts : List String) : List (String × String) :=
  ("🏠 Home", get_relative_path_to_root parts ++ "/index.html") :: trailEntries parts.length 0 parts

/-- Concatenation of a list of strings. -/
def concatAll : List String → String
  | [] => ""
  | s :: rest => s ++ concatAll rest

/-- Rendering a (label, link) trail back to the HTML string built by
`create_breadcrumb`. -/
def renderTrail : List (String × String) → String
  | [] => ""
  | home :: rest => renderHomeEntry home ++ concatAll (rest.map renderCrumbEntry)

/-- A file child as seen by the walker: its name and whether the per-file
step (conversion and write, source lines 622-627) succeeds for it.  The
Boolean abstracts the exceptions caught at source lines 630-631. -/
structure FileEntry where
  name : String
  ok : Bool
deriving DecidableEq

/-- One `(root, dirs, files)` triple yielded by `os.walk` (source line 584),
with `root` replaced by its path relative to the source directory
(`rel = []` for the source root itself, source lines 587-591). -/
structure WalkEntry where
  rel : List String
  dirs : List String
  files : List FileEntry
deriving DecidableEq

/-- An observable step of `generate_site`, in program order: the `.nojekyll`
marker write, a content-page write, a reported per-file error, or an
`index.html` write. -/
inductive Event where
  | nojekyll : Event
  | page : List String → String → Event
  | fileError : List String → Event
  | index : List String → Event
deriving DecidableEq

/-- The walker's file-eligibility test (source line 621):
`file.lower().endswith((".md", ".txt"))`. -/
def isEligibleFile (name : String) : Bool :=
  pyEndsWith (pyLower name) ".md" || pyEndsWith (pyLower name) ".txt"

/-- The listing builder's file test (source line 515):
`item.suffix.lower() in [".md", ".txt"]`. -/
def isListedSuffix (name : String) : Bool :=
  pyLower (pySuffix name) == ".md" || pyLower (pySuffix name) == ".txt"

/-- The walker's exclusion test (source lines 594-598): some segment of the
relative path starts with `"."` or equals the output directory's name. -/
def hasBadSegment (outName : String) (rel : List String) : Bool :=
  rel.any (fun part => pyStartsWith part "." || part == outName)

/-- The walker's second skip test (source lines 600-601), phrased for the
standard layout in which the output directory lies directly under the
source root: the visited directory is the output directory itself or is
nested inside it. -/
def isInsideOutputDir (outName : String) (rel : List String) : Bool :=
  rel == [outName] || [outName].isPrefixOf rel

/-- A walk entry is skipped when either skip test fires. -/
def skipDir (outName : String) (rel : List String) : Bool :=
  hasBadSegment outName rel || isInsideOutputDir outName rel

/-- Translation of `format_markdown_file` (source lines 462-465): the
Prettier step is disabled and the function returns True unconditionally,
ignoring both the flag and the path. -/
def format_markdown_file (_format_markdown : Bool) (_md_path : List String) : Bool :=
  true

/-- Parsing of the third command-line argument (source line 671):
`sys.argv[3].lower() not in ["false", "0", "no"]`. -/
def parse_format_markdown (arg : String) : Bool :=
  !(pyLower arg == "false" || pyLower arg == "0" || pyLower arg == "no")

/-- The body of the per-file loop of `generate_site` (source lines
612-631) for one file: hidden files are skipped, eligible files produce a
content page or, when the per-file step fails, a reported error carrying
the file's relative path.  The `format_markdown_file` result (source line
470) is discarded. -/
def fileAction (fm : Bool) (rel : List String) (f : FileEntry) : List Event :=
  if pyStartsWith f.name "." then []
  else if isEligibleFile f.name then
    let _fmt := format_markdown_file fm (rel ++ [f.name])
    if f.ok then [Event.page rel f.name] else [Event.fileError (rel ++ [f.name])]
  else []

/-- The per-file loop of `generate_site` (source lines 612-631), over the
entry's files in walk order. -/
def fileEvents (fm : Bool) (rel : List String) (files : List FileEntry) : List Event :=
  files.flatMap (fileAction fm rel)

/-- Processing of one `os.walk` entry (source lines 584-643): skip excluded
directories; otherwise write the content pages for the entry's files and
then this directory's `index.html`. -/
def dirEvents (outName : String) (fm : Bool) (e : WalkEntry) : List Event :=
  if skipDir outName e.rel then []
  else fileEvents fm e.rel e.files ++ [Event.index e.rel]

/-- Translation of `generate_site` (source lines 571-646): the `.nojekyll`
marker write followed by the per-directory processing of the walk, in
order. -/
def generate_site (outName : String) (fm : Bool) (wl : List WalkEntry) : List Event :=
  Event.nojekyll :: wl.flatMap (dirEvents outName fm)

/-- The output file (as a path relative to the output directory) written by
an event, if any: `.nojekyll` (source line 581), `<stem>.html` (source line
624), `index.html` (source line 636). -/
def eventPath : Event → Option (List String)
  | Event.nojekyll => some [".nojekyll"]
  | Event.page rel f => some (rel ++ [pyStem f ++ ".html"])
  | Event.fileError _ => none
  | Event.index rel => some (rel ++ ["index.html"])

/-- The ordered list of output paths written by a run. -/
def sitePaths (outName : String) (fm : Bool) (wl : List WalkEntry) : List (List String) :=
  (generate_site outName fm wl).filterMap eventPath

/-- One card of a directory listing page: display name, link target, and
human-readable type label. -/
structure Card where
  name : String
  path : String
  ctype : String
deriving DecidableEq

/-- The classification loop of `create_directory_listing` (source lines
502-523) over the sorted children `(name, is_dir)` of a directory: hidden
children and children named like the output directory are skipped,
directories yield folder cards, files with a recognized suffix yield file
cards.  Returns (directory cards, file cards), each in iteration order. -/
def listingCards (outName : String) : List (String × Bool) → List Card × List Card
  | [] => ([], [])
  | (name, isDir) :: rest =>
    let p := listingCards outName rest
    if pyStartsWith name "." || name == outName then p
    else if isDir then
      ({ name := name, path := name ++ "/index.html", ctype := "📁 Directory" } :: p.1, p.2)
    else if isListedSuffix name then
      (p.1, { name := name, path := pyStem name ++ ".html",
              ctype := "📄 " ++ pyUpper (pySuffix name) ++ " File" } :: p.2)
    else p

/-- Insertion into a name-sorted child list. -/
def insertByName (x : String × Bool) : List (String × Bool) → List (String × Bool)
  | [] => [x]
  | y :: ys => if decide (x.1 ≤ y.1) then x :: y :: ys else y :: insertByName x ys

/-- Sorting a child list by name (insertion sort). -/
def sortByName : List (String × Bool) → List (String × Bool)
  | [] => []
  | x :: xs => insertByName x (sortByName xs)

/-- The sorted children of a directory (source line 502:
`sorted(dir_path.iterdir())`), each tagged with whether it is a
directory. -/
def sortedChildren (dirs : List String) (files : List FileEntry) : List (String × Bool) :=
  sortByName (dirs.map (fun d => (d, true)) ++ files.map (fun f => (f.name, false)))

/-- Translation of `create_directory_listing` (source lines 497-523),
restricted to the card data it computes for a walk entry's directory. -/
def create_directory_listing (outName : String) (e : WalkEntry) : List Card × List Card :=
  listingCards outName (sortedChildren e.dirs e.files)

/-- The files of a walk entry that are actually processed into content
pages in a fully successful run: not hidden, eligible, and succeeding. -/
def pageFiles (e : WalkEntry) : List FileEntry :=
  e.files.filter (fun f => !(pyStartsWith f.name ".") && isEligibleFile f.name && f.ok)

/-- The base names (pathlib stems) of the processed files of an entry. -/
def pageStems (e : WalkEntry) : List String :=
  (pageFiles e).map (fun f => pyStem f.name)

/-- Whether a byte is a UTF-8 continuation byte (0x80-0xBF). -/
def isCont (b : Nat) : Bool := 128 ≤ b && b < 192

/-- Whether `b1` may follow the three-byte lead `b` (UTF-8 forbids overlong
encodings after 0xE0 and surrogates after 0xED). -/
def cont3ok (b b1 : Nat) : Bool :=
  if b = 224 then 160 ≤ b1 && b1 < 192
  else if b = 237 then 128 ≤ b1 && b1 < 160
  else isCont b1

/-- Whether `b1` may follow the four-byte lead `b` (code points up to
U+10FFFF only). -/
def cont4ok (b b1 : Nat) : Bool :=
  if b = 240 then 144 ≤ b1 && b1 < 192
  else if b = 244 then 128 ≤ b1 && b1 < 144
  else isCont b1

/-- The UTF-8 decoder invoked by `open(md_path, "r", encoding="utf-8",
errors="ignore")` at source line 472, as a function from the file's bytes
to decoded code points.  With `ignore := false` it models the strict
default error handler, which fails (`none`) on undecodable input; with
`ignore := true` it models `errors="ignore"`, which drops the offending
bytes and resynchronizes at the next byte, as the source requests. -/
def utf8Decode (ignore : Bool) : List Nat → Option (List Nat)
  | [] => some []
  | b :: rest =>
    if b < 128 then (utf8Decode ignore rest).map (fun cs => b :: cs)
    else if b < 194 then
      if ignore then utf8Decode ignore rest else none
    else if b < 224 then
      match rest with
      | [] => if ignore then some [] else none
      | b1 :: rest1 =>
        if isCont b1 then
          (utf8Decode ignore rest1).map (fun cs => ((b - 192) * 64 + (b1 - 128)) :: cs)
        else if ignore then utf8Decode ignore (b1 :: rest1) else none
    else if b < 240 then
      match rest with
      | [] => if ignore then some [] else none
      | b1 :: rest1 =>
        if cont3ok b b1 then
          match rest1 with
          | [] => if ignore then some [] else none
          | b2 :: rest2 =>
            if isCont b2 then
              (utf8Decode ignore rest2).map
                (fun cs => ((b - 224) * 4096 + (b1 - 128) * 64 + (b2 - 128)) :: cs)
            else if ignore then utf8Decode ignore (b2 :: rest2) else none
        else if ignore then utf8Decode ignore (b1 :: rest1) else none
    else if b < 245 then
      match rest with
      | [] => if ignore then some [] else none
      | b1 :: rest1 =>
        if cont4ok b b1 then
          match rest1 with
          | [] => if ignore then some [] else none
          | b2 :: rest2 =>
            if isCont b2 then
              match rest2 with
              | [] => if ignore then some [] else none
              | b3 :: rest3 =>
                if isCont b3 then
                  (utf8Decode ignore rest3).map
                    (fun cs => ((b - 240) * 262144 + (b1 - 128) * 4096 +
                      (b2 - 128) * 64 + (b3 - 128)) :: cs)
                else if ignore then utf8Decode ignore (b3 :: rest3) else none
            else if ignore then utf8Decode ignore (b2 :: rest2) else none
        else if ignore then utf8Decode ignore (b1 :: rest1) else none
    else
      if ignore then utf8Decode ignore rest else none

/-- The text handed to the Markdown converter for a source file with the
given raw bytes (source lines 472-473): UTF-8 decoding with
`errors="ignore"`, which is total. -/
def process_markdown_text (bytes : List Nat) : List Nat :=
  (utf8Decode true bytes).getD []

theorem string_ext {a b : String} (h : a.data = b.data) : a = b := by
  cases a; cases b; simp only at h; rw [h]

theorem splitSlash_up (s : String) : splitSlash ("../" ++ s) = ".." :: splitSlash s := by
  show segsAux [] (("../" ++ s).data) = ".." :: segsAux [] s.data
  rw [String.data_append]
  show segsAux [] ('.' :: '.' :: '/' :: s.data) = ".." :: segsAux [] s.data
  simp [segsAux]

theorem append_up (s : String) : ".." ++ "/" ++ s = "../" ++ s := by
  apply string_ext
  simp [String.data_append]

theorem joinSlash_replicate_succ (d : Nat) :
    joinSlash (List.replicate (d + 2) "..") = "../" ++ joinSlash (List.replicate (d + 1) "..") := by
  rw [List.replicate_succ]
  rw [show List.replicate (d + 1) ".." = ".." :: List.replicate d ".." from List.replicate_succ ..]
  show ".." ++ "/" ++ joinSlash (".." :: List.replicate d "..") = _
  rw [append_up]

theorem splitSlash_joinSlash_up (d : Nat) :
    splitSlash (joinSlash (List.replicate (d + 1) "..")) = List.replicate (d + 1) ".." := by
  induction d with
  | zero => decide
  | succ n ih =>
    rw [joinSlash_replicate_succ, splitSlash_up, ih]
    rw [show List.replicate (n + 2) ".." = ".." :: List.replicate (n + 1) ".." from List.replicate_succ ..]

/-- Claim C2: `get_relative_path_to_root` returns the sentinel `"."` at depth
0, exactly `d` parent-directory markers joined by `/` at depth `d > 0` (the
split of the result is literally `d` copies of `".."`), and its result
depends only on the number of segments of its argument. -/
theorem claim_C2 (parts qarts : List String) :
    (parts = [] → get_relative_path_to_root parts = ".") ∧
    (0 < parts.length →
      get_relative_path_to_root parts = joinSlash (List.replicate parts.length "..") ∧
      splitSlash (get_relative_path_to_root parts) = List.replicate parts.length "..") ∧
    (parts.length = qarts.length →
      get_relative_path_to_root parts = get_relative_path_to_root qarts) := by
  refine ⟨fun h => by simp [get_relative_path_to_root, h], fun h => ?_, fun h => ?_⟩
  · have hne : parts ≠ [] := by
      intro hnil; rw [hnil] at h; simp at h
    have he : get_relative_path_to_root parts = joinSlash (List.replicate parts.length "..") := by
      simp [get_relative_path_to_root, hne, h]
    refine ⟨he, ?_⟩
    rw [he]
    obtain ⟨d, hd⟩ : ∃ d, parts.length = d + 1 :=
      ⟨parts.length - 1, by omega⟩
    rw [hd]
    exact splitSlash_joinSlash_up d
  · rcases Decidable.em (parts = []) with hp | hp
    · have hq : qarts = [] := by
        rw [hp] at h; exact List.eq_nil_of_length_eq_zero h.symm
      rw [hp, hq]
    · have hq : qarts ≠ [] := by
        intro hnil; rw [hnil] at h; simp at h; exact hp h
      simp [get_relative_path_to_root, hp, hq, h]

theorem claim_C2_witness :
    get_relative_path_to_root ["a", "b"] = get_relative_path_to_root ["x", "y"] ∧
    splitSlash (get_relative_path_to_root ["a", "b"]) = ["..", ".."] := by
  refine ⟨(claim_C2 ["a", "b"] ["x", "y"]).2.2 (by decide), ?_⟩
  have h := ((claim_C2 ["a", "b"] ["x", "y"]).2.1 (by decide)).2
  simpa using h

theorem length_trailEntries (total : Nat) (ps : List String) :
    ∀ i, (trailEntries total i ps).length = ps.length := by
  induction ps with
  | nil => intro i; simp [trailEntries]
  | cons p rest ih => intro i; simp [trailEntries, ih (i + 1)]

theorem getElem?_trailEntries (total : Nat) (ps : List String) :
    ∀ i k, (trailEntries total i ps)[k]? =
      (ps[k]?).map (fun part => (part, crumbLink (total - (i + k) - 1))) := by
  induction ps with
  | nil => intro i k; simp [trailEntries]
  | cons p rest ih =>
    intro i k
    cases k with
    | zero => simp [trailEntries]
    | succ k =>
      have h : i + 1 + k = i + (k + 1) := by omega
      simp only [trailEntries, List.getElem?_cons_succ, ih (i + 1) k, h]

theorem crumbLoop_eq (total : Nat) (ps : List String) :
    ∀ i, crumbLoop total i ps = concatAll ((trailEntries total i ps).map renderCrumbEntry) := by
  induction ps with
  | nil => intro i; simp [crumbLoop, trailEntries, concatAll]
  | cons p rest ih =>
    intro i
    simp [crumbLoop, trailEntries, concatAll, ih (i + 1)]

theorem map_fst_trailEntries (total : Nat) (ps : List String) :
    ∀ i, (trailEntries total i ps).map Prod.fst = ps := by
  induction ps with
  | nil => intro i; simp [trailEntries]
  | cons p rest ih => intro i; simp [trailEntries, ih (i + 1)]

theorem getLast?_cons_of_ne_nil {α : Type} (a : α) {l : List α} (h : l ≠ []) :
    (a :: l).getLast? = l.getLast? := by
  cases l with
  | nil => exact absurd rfl h
  | cons b t => exact List.getLast?_cons_cons

/-- Claim C3: the breadcrumb trail begins with a Home entry whose link is the
root-relative prefix followed by `/index.html`; at the root it is just the
Home entry; for segments `[s0..sN]` it has one extra entry per segment
(length depth+1), the entry at position `i` carrying label `si` and link
`(N-i)` parent markers joined by `/` plus `/index.html` (plain `index.html`
when `N-i = 0`); the last non-Home label is the node's own name; and the
HTML string `create_breadcrumb` builds is exactly the rendering of this
trail. -/
theorem claim_C3 (parts : List String) :
    create_breadcrumb parts = renderTrail (breadcrumbTrail parts) ∧
    (breadcrumbTrail parts).length = parts.length + 1 ∧
    (breadcrumbTrail parts).head? =
      some ("🏠 Home", get_relative_path_to_root parts ++ "/index.html") ∧
    (parts = [] → breadcrumbTrail parts = [("🏠 Home", "./index.html")]) ∧
    (∀ i, ∀ h : i < parts.length,
      (breadcrumbTrail parts)[i + 1]? =
        some (parts.get ⟨i, h⟩,
          if parts.length - 1 - i = 0 then "index.html"
          else joinSlash (List.replicate (parts.length - 1 - i) "..") ++ "/index.html")) ∧
    (parts ≠ [] → ((breadcrumbTrail parts).map Prod.fst).getLast? = parts.getLast?) := by
  refine ⟨?_, ?_, ?_, ?_, ?_, ?_⟩
  · rcases Decidable.em (parts = []) with h | h
    · subst h
      simp [create_breadcrumb, renderTrail, breadcrumbTrail, trailEntries, concatAll]
    · simp only [create_breadcrumb, renderTrail, breadcrumbTrail, if_neg h]
      rw [crumbLoop_eq parts.length parts 0]
  · simp [breadcrumbTrail, length_trailEntries]
  · simp [breadcrumbTrail]
  · intro h
    subst h
    simp [breadcrumbTrail, trailEntries, get_relative_path_to_root]
  · intro i h
    simp only [breadcrumbTrail, List.getElem?_cons_succ]
    rw [getElem?_trailEntries parts.length parts 0 i]
    rw [List.getElem?_eq_getElem h]
    have hk : parts.length - (0 + i) - 1 = parts.length - 1 - i := by omega
    rw [hk]
    simp only [Option.map_some']
    congr 1
    refine Prod.ext (by simp) ?_
    simp only [crumbLink]
    rcases Decidable.em (parts.length - 1 - i = 0) with h0 | h0
    · simp [h0]
    · simp [h0, Nat.pos_of_ne_zero h0]
  · intro h
    simp only [breadcrumbTrail, List.map_cons]
    rw [map_fst_trailEntries parts.length parts 0]
    exact getLast?_cons_of_ne_nil _ h

theorem claim_C3_witness :
    create_breadcrumb ["guide", "setup"] = renderTrail (breadcrumbTrail ["guide", "setup"]) ∧
    (breadcrumbTrail ["guide", "setup"]).length = 3 ∧
    (breadcrumbTrail ["guide", "setup"])[1]? = some ("guide", "../index.html") ∧
    (breadcrumbTrail ["guide", "setup"])[2]? = some ("setup", "index.html") ∧
    ((breadcrumbTrail ["guide", "setup"]).map Prod.fst).getLast? = some "setup" := by
  have h := claim_C3 ["guide", "setup"]
  refine ⟨h.1, h.2.1, ?_, ?_, ?_⟩
  · have h1 := h.2.2.2.2.1 0 (by decide)
    rw [h1]; rfl
  · have h2 := h.2.2.2.2.1 1 (by decide)
    rw [h2]; rfl
  · have h3 := h.2.2.2.2.2 (by decide)
    rw [h3]; rfl

theorem mem_fileAction_page {fm : Bool} {rel : List String} {f : FileEntry}
    {r : List String} {n : String} :
    Event.page r n ∈ fileAction fm rel f ↔
      (r = rel ∧ n = f.name ∧ pyStartsWith f.name "." = false ∧
        isEligibleFile f.name = true ∧ f.ok = true) := by
  unfold fileAction
  cases hb1 : pyStartsWith f.name "." <;> cases hb2 : isEligibleFile f.name <;>
    cases hb3 : f.ok <;> simp

theorem mem_fileAction_error {fm : Bool} {rel : List String} {f : FileEntry}
    {p : List String} :
    Event.fileError p ∈ fileAction fm rel f ↔
      (p = rel ++ [f.name] ∧ pyStartsWith f.name "." = false ∧
        isEligibleFile f.name = true ∧ f.ok = false) := by
  unfold fileAction
  cases hb1 : pyStartsWith f.name "." <;> cases hb2 : isEligibleFile f.name <;>
    cases hb3 : f.ok <;> simp

theorem not_index_mem_fileAction {fm : Bool} {rel : List String} {f : FileEntry}
    {r : List String} : Event.index r ∉ fileAction fm rel f := by
  unfold fileAction
  cases hb1 : pyStartsWith f.name "." <;> cases hb2 : isEligibleFile f.name <;>
    cases hb3 : f.ok <;> simp

theorem not_index_mem_fileEvents {fm : Bool} {rel : List String}
    {files : List FileEntry} {r : List String} :
    Event.index r ∉ fileEvents fm rel files := by
  intro h
  rw [fileEvents, List.mem_flatMap] at h
  obtain ⟨f, _, hf⟩ := h
  exact not_index_mem_fileAction hf

theorem mem_dirEvents_index {outName : String} {fm : Bool} {e : WalkEntry}
    {r : List String} :
    Event.index r ∈ dirEvents outName fm e ↔
      (skipDir outName e.rel = false ∧ r = e.rel) := by
  unfold dirEvents
  cases hs : skipDir outName e.rel
  · rw [if_neg Bool.false_ne_true]
    constructor
    · intro h
      rcases List.mem_append.mp h with h | h
      · exact absurd h not_index_mem_fileEvents
      · simp only [List.mem_singleton, Event.index.injEq] at h
        exact ⟨rfl, h⟩
    · rintro ⟨-, h⟩
      subst h
      exact List.mem_append.mpr (Or.inr (by simp))
  · rw [if_pos rfl]
    simp

theorem mem_dirEvents_page {outName : String} {fm : Bool} {e : WalkEntry}
    {r : List String} {n : String} :
    Event.page r n ∈ dirEvents outName fm e ↔
      (skipDir outName e.rel = false ∧ r = e.rel ∧
        ∃ f ∈ e.files, n = f.name ∧ pyStartsWith f.name "." = false ∧
          isEligibleFile f.name = true ∧ f.ok = true) := by
  unfold dirEvents
  cases hs : skipDir outName e.rel
  · rw [if_neg Bool.false_ne_true, List.mem_append]
    constructor
    · intro h
      rcases h with h | h
      · rw [fileEvents, List.mem_flatMap] at h
        obtain ⟨f, hfmem, hf⟩ := h
        rw [mem_fileAction_page] at hf
        exact ⟨rfl, hf.1, f, hfmem, hf.2⟩
      · simp at h
    · rintro ⟨-, hr, f, hfmem, hf⟩
      refine Or.inl ?_
      rw [fileEvents, List.mem_flatMap]
      exact ⟨f, hfmem, mem_fileAction_page.mpr ⟨hr, hf⟩⟩
  · rw [if_pos rfl]
    simp

theorem mem_dirEvents_error {outName : String} {fm : Bool} {e : WalkEntry}
    {p : List String} :
    Event.fileError p ∈ dirEvents outName fm e ↔
      (skipDir outName e.rel = false ∧
        ∃ f ∈ e.files, p = e.rel ++ [f.name] ∧ pyStartsWith f.name "." = false ∧
          isEligibleFile f.name = true ∧ f.ok = false) := by
  unfold dirEvents
  cases hs : skipDir outName e.rel
  · rw [if_neg Bool.false_ne_true, List.mem_append]
    constructor
    · intro h
      rcases h with h | h
      · rw [fileEvents, List.mem_flatMap] at h
        obtain ⟨f, hfmem, hf⟩ := h
        rw [mem_fileAction_error] at hf
        exact ⟨rfl, f, hfmem, hf⟩
      · simp at h
    · rintro ⟨-, f, hfmem, hf⟩
      refine Or.inl ?_
      rw [fileEvents, List.mem_flatMap]
      exact ⟨f, hfmem, mem_fileAction_error.mpr hf⟩
  · rw [if_pos rfl]
    simp

theorem mem_generate_site_index {outName : String} {fm : Bool}
    {wl : List WalkEntry} {r : List String} :
    Event.index r ∈ generate_site outName fm wl ↔
      ∃ e ∈ wl, skipDir outName e.rel = false ∧ r = e.rel := by
  unfold generate_site
  rw [List.mem_cons]
  simp only [List.mem_flatMap, mem_dirEvents_index]
  constructor
  · intro h
    rcases h with h | ⟨e, he, hs, hr⟩
    · exact absurd h (by simp)
    · exact ⟨e, he, hs, hr⟩
  · intro ⟨e, he, hs, hr⟩
    exact Or.inr ⟨e, he, hs, hr⟩

theorem mem_generate_site_page {outName : String} {fm : Bool}
    {wl : List WalkEntry} {r : List String} {n : String} :
    Event.page r n ∈ generate_site outName fm wl ↔
      ∃ e ∈ wl, skipDir outName e.rel = false ∧ r = e.rel ∧
        ∃ f ∈ e.files, n = f.name ∧ pyStartsWith f.name "." = false ∧
          isEligibleFile f.name = true ∧ f.ok = true := by
  unfold generate_site
  rw [List.mem_cons]
  simp only [List.mem_flatMap, mem_dirEvents_page]
  constructor
  · intro h
    rcases h with h | ⟨e, he, h⟩
    · exact absurd h (by simp)
    · exact ⟨e, he, h⟩
  · intro ⟨e, he, h⟩
    exact Or.inr ⟨e, he, h⟩

theorem mem_generate_site_error {outName : String} {fm : Bool}
    {wl : List WalkEntry} {p : List String} :
    Event.fileError p ∈ generate_site outName fm wl ↔
      ∃ e ∈ wl, skipDir outName e.rel = false ∧
        ∃ f ∈ e.files, p = e.rel ++ [f.name] ∧ pyStartsWith f.name "." = false ∧
          isEligibleFile f.name = true ∧ f.ok = false := by
  unfold generate_site
  rw [List.mem_cons]
  simp only [List.mem_flatMap, mem_dirEvents_error]
  constructor
  · intro h
    rcases h with h | ⟨e, he, h⟩
    · exact absurd h (by simp)
    · exact ⟨e, he, h⟩
  · intro ⟨e, he, h⟩
    exact Or.inr ⟨e, he, h⟩

theorem nodup_map_inj {α β : Type} {l : List α} {f : α → β}
    (h : (l.map f).Nodup) {a b : α} (ha : a ∈ l) (hb : b ∈ l) (hf : f a = f b) :
    a = b :=
  List.inj_on_of_nodup_map h ha hb hf

/-- Claim C5: when the per-file step for one eligible file fails, the
failure is reported as an error event carrying that file's relative path,
only that file is skipped (its page is not written), and the walk
continues: every other eligible non-hidden file whose step succeeds still
yields its content page, and every visited directory still yields its
index page.  The run always completes because the embedded `generate_site`
is a total function, and the per-file failure never escapes the per-file
step. -/
theorem claim_C5 (outName : String) (fm : Bool) (wl : List WalkEntry)
    (hrels : (wl.map WalkEntry.rel).Nodup)
    (hnames : ∀ e2 ∈ wl, (e2.files.map FileEntry.name).Nodup)
    (e : WalkEntry) (he : e ∈ wl) (hskip : skipDir outName e.rel = false)
    (f : FileEntry) (hf : f ∈ e.files) (hh : pyStartsWith f.name "." = false)
    (hel : isEligibleFile f.name = true) (hfail : f.ok = false) :
    Event.fileError (e.rel ++ [f.name]) ∈ generate_site outName fm wl ∧
    Event.page e.rel f.name ∉ generate_site outName fm wl ∧
    (∀ e2 ∈ wl, skipDir outName e2.rel = false →
      Event.index e2.rel ∈ generate_site outName fm wl ∧
      (∀ g ∈ e2.files, pyStartsWith g.name "." = false → isEligibleFile g.name = true →
        g.ok = true → Event.page e2.rel g.name ∈ generate_site outName fm wl)) := by
  refine ⟨?_, ?_, ?_⟩
  · exact mem_generate_site_error.mpr ⟨e, he, hskip, f, hf, rfl, hh, hel, hfail⟩
  · intro h
    rw [mem_generate_site_page] at h
    obtain ⟨e2, he2, hs2, hr2, g, hg, hgn, _, _, hgok⟩ := h
    have he2e : e2 = e := nodup_map_inj hrels he2 he hr2.symm
    subst he2e
    have hgf : g = f := nodup_map_inj (hnames e2 he2) hg hf hgn.symm
    subst hgf
    rw [hfail] at hgok
    exact Bool.false_ne_true hgok
  · intro e2 he2 hs2
    refine ⟨mem_generate_site_index.mpr ⟨e2, he2, hs2, rfl⟩, ?_⟩
    intro g hg hgh hgel hgok
    exact mem_generate_site_page.mpr ⟨e2, he2, hs2, rfl, g, hg, rfl, hgh, hgel, hgok⟩

theorem claim_C5_witness :
    Event.fileError ["a.md"] ∈
      generate_site "docs" true [⟨[], [], [⟨"a.md", false⟩, ⟨"b.md", true⟩]⟩] ∧
    Event.page [] "a.md" ∉
      generate_site "docs" true [⟨[], [], [⟨"a.md", false⟩, ⟨"b.md", true⟩]⟩] ∧
    Event.page [] "b.md" ∈
      generate_site "docs" true [⟨[], [], [⟨"a.md", false⟩, ⟨"b.md", true⟩]⟩] ∧
    Event.index [] ∈
      generate_site "docs" true [⟨[], [], [⟨"a.md", false⟩, ⟨"b.md", true⟩]⟩] := by
  have h := claim_C5 "docs" true [⟨[], [], [⟨"a.md", false⟩, ⟨"b.md", true⟩]⟩]
    (by decide) (by decide) ⟨[], [], [⟨"a.md", false⟩, ⟨"b.md", true⟩]⟩ (by decide)
    (by decide) ⟨"a.md", false⟩ (by decide) (by decide) (by decide) (by decide)
  have h3 := h.2.2 ⟨[], [], [⟨"a.md", false⟩, ⟨"b.md", true⟩]⟩ (by decide) (by decide)
  exact ⟨h.1, h.2.1, h3.2 ⟨"b.md", true⟩ (by decide) (by decide) (by decide) (by decide), h3.1⟩

theorem generate_site_split {outName : String} {fm : Bool}
    {wl l1 l2 : List WalkEntry} {e : WalkEntry}
    (hw : wl = l1 ++ e :: l2) (hskip : skipDir outName e.rel = false) :
    generate_site outName fm wl =
      (Event.nojekyll :: l1.flatMap (dirEvents outName fm) ++ fileEvents fm e.rel e.files)
        ++ Event.index e.rel :: l2.flatMap (dirEvents outName fm) := by
  subst hw
  unfold generate_site
  rw [List.flatMap_append, List.flatMap_cons]
  conv_lhs => rw [dirEvents, if_neg (by rw [hskip]; exact Bool.false_ne_true)]
  simp [List.append_assoc]

/-- Claim C7: for every visited directory, all of its content-page writes
happen before its (unique) index-page write: the event list splits around
the directory's index event, with every page event of the directory's
eligible successful files in the part before it, and no other index event
for the same directory anywhere. -/
theorem claim_C7 (outName : String) (fm : Bool) (wl : List WalkEntry)
    (hrels : (wl.map WalkEntry.rel).Nodup)
    (e : WalkEntry) (he : e ∈ wl) (hskip : skipDir outName e.rel = false) :
    ∃ pre post,
      generate_site outName fm wl = pre ++ Event.index e.rel :: post ∧
      (∀ f ∈ e.files, pyStartsWith f.name "." = false → isEligibleFile f.name = true →
        f.ok = true → Event.page e.rel f.name ∈ pre) ∧
      Event.index e.rel ∉ pre ∧ Event.index e.rel ∉ post := by
  obtain ⟨l1, l2, hw⟩ := List.append_of_mem he
  have hmap : (l1.map WalkEntry.rel ++ e.rel :: l2.map WalkEntry.rel).Nodup := by
    rw [hw] at hrels
    simpa using hrels
  have hnotl1 : e.rel ∉ l1.map WalkEntry.rel := fun hmem =>
    (List.nodup_append.mp hmap).2.2 hmem (List.mem_cons_self _ _)
  have hnotl2 : e.rel ∉ l2.map WalkEntry.rel :=
    (List.nodup_cons.mp (List.nodup_append.mp hmap).2.1).1
  refine ⟨Event.nojekyll :: l1.flatMap (dirEvents outName fm) ++ fileEvents fm e.rel e.files,
    l2.flatMap (dirEvents outName fm), generate_site_split hw hskip, ?_, ?_, ?_⟩
  · intro f hf hh hel hok
    refine List.mem_append.mpr (Or.inr ?_)
    rw [fileEvents, List.mem_flatMap]
    exact ⟨f, hf, mem_fileAction_page.mpr ⟨rfl, rfl, hh, hel, hok⟩⟩
  · intro h
    rcases List.mem_append.mp h with h | h
    · rcases List.mem_cons.mp h with h | h
      · exact absurd h (by simp)
      · rw [List.mem_flatMap] at h
        obtain ⟨e2, he2, hev⟩ := h
        rw [mem_dirEvents_index] at hev
        refine hnotl1 ?_
        rw [hev.2]
        exact List.mem_map_of_mem WalkEntry.rel he2
    · exact not_index_mem_fileEvents h
  · intro h
    rw [List.mem_flatMap] at h
    obtain ⟨e2, he2, hev⟩ := h
    rw [mem_dirEvents_index] at hev
    refine hnotl2 ?_
    rw [hev.2]
    exact List.mem_map_of_mem WalkEntry.rel he2

theorem claim_C7_witness :
    ∃ pre post,
      generate_site "docs" true [⟨[], ["guide"], [⟨"README.md", true⟩]⟩] =
        pre ++ Event.index [] :: post ∧
      (∀ f ∈ [(⟨"README.md", true⟩ : FileEntry)],
        pyStartsWith f.name "." = false → isEligibleFile f.name = true →
        f.ok = true → Event.page [] f.name ∈ pre) ∧
      Event.index [] ∉ pre ∧ Event.index [] ∉ post :=
  claim_C7 "docs" true [⟨[], ["guide"], [⟨"README.md", true⟩]⟩] (by decide)
    ⟨[], ["guide"], [⟨"README.md", true⟩]⟩ (by decide) (by decide)

theorem isInside_imp_bad {outName : String} {rel : List String}
    (h : isInsideOutputDir outName rel = true) : hasBadSegment outName rel = true := by
  rw [isInsideOutputDir, Bool.or_eq_true] at h
  rcases h with h | h
  · rw [beq_iff_eq] at h
    subst h
    simp [hasBadSegment]
  · rw [ List.isPrefixOf_iff_prefix] at h
    obtain ⟨t, ht⟩ := h
    rw [hasBadSegment, ← ht]
    simp

theorem skipDir_eq_hasBad (outName : String) (rel : List String) :
    skipDir outName rel = hasBadSegment outName rel := by
  rw [skipDir]
  cases hb : hasBadSegment outName rel
  · cases hi : isInsideOutputDir outName rel
    · rfl
    · rw [isInside_imp_bad hi] at hb
      exact absurd hb.symm Bool.false_ne_true
  · simp

theorem mem_listingCards_fst {outName : String} {items : List (String × Bool)} {c : Card} :
    c ∈ (listingCards outName items).1 ↔
      ∃ it ∈ items, it.2 = true ∧ pyStartsWith it.1 "." = false ∧ it.1 ≠ outName ∧
        c = ⟨it.1, it.1 ++ "/index.html", "📁 Directory"⟩ := by
  induction items with
  | nil => simp [listingCards]
  | cons it rest ih =>
    obtain ⟨name, isDir⟩ := it
    simp only [listingCards]
    cases h1 : pyStartsWith name "." <;> cases h2 : name == outName <;>
      cases isDir <;> cases h3 : isListedSuffix name <;>
        simp_all [List.mem_cons, beq_iff_eq]

theorem mem_listingCards_snd {outName : String} {items : List (String × Bool)} {c : Card} :
    c ∈ (listingCards outName items).2 ↔
      ∃ it ∈ items, it.2 = false ∧ pyStartsWith it.1 "." = false ∧ it.1 ≠ outName ∧
        isListedSuffix it.1 = true ∧
        c = ⟨it.1, pyStem it.1 ++ ".html", "📄 " ++ pyUpper (pySuffix it.1) ++ " File"⟩ := by
  induction items with
  | nil => simp [listingCards]
  | cons it rest ih =>
    obtain ⟨name, isDir⟩ := it
    simp only [listingCards]
    cases h1 : pyStartsWith name "." <;> cases h2 : name == outName <;>
      cases isDir <;> cases h3 : isListedSuffix name <;>
        simp_all [List.mem_cons, beq_iff_eq]

theorem mem_insertByName {x a : String × Bool} {l : List (String × Bool)} :
    a ∈ insertByName x l ↔ a = x ∨ a ∈ l := by
  induction l with
  | nil => simp [insertByName]
  | cons y ys ih =>
    rw [insertByName]
    cases hc : decide (x.1 ≤ y.1)
    · rw [if_neg Bool.false_ne_true]
      rw [List.mem_cons, ih, List.mem_cons]
      tauto
    · rw [if_pos rfl]
      simp

theorem mem_sortByName {a : String × Bool} {l : List (String × Bool)} :
    a ∈ sortByName l ↔ a ∈ l := by
  induction l with
  | nil => simp [sortByName]
  | cons x xs ih =>
    rw [sortByName, mem_insertByName, ih, List.mem_cons]

theorem mem_sortedChildren {dirs : List String} {files : List FileEntry}
    {it : String × Bool} :
    it ∈ sortedChildren dirs files ↔
      ((it.2 = true ∧ it.1 ∈ dirs) ∨ (it.2 = false ∧ ∃ f ∈ files, f.name = it.1)) := by
  obtain ⟨name, isDir⟩ := it
  rw [sortedChildren, mem_sortByName, List.mem_append]
  cases isDir <;> simp [List.mem_map, eq_comm, and_comm]

/-- Claim C6 (amended): a walked directory yields output exactly when no
segment of its source-relative path starts with the hidden-file marker or
equals the output directory's name — the name-based test, which covers the
output directory itself and everything inside it but also excludes any
like-named directory elsewhere in the tree; and a child is shown in its
parent's listing exactly when its own name is not hidden and not the output
directory's name and (for files) its suffix is a recognized documentation
suffix. -/
theorem claim_C6_amended (outName : String) (fm : Bool) (wl : List WalkEntry)
    (e : WalkEntry) (he : e ∈ wl) :
    (Event.index e.rel ∈ generate_site outName fm wl ↔
      hasBadSegment outName e.rel = false) ∧
    (∀ c : Card, c ∈ (create_directory_listing outName e).1 ↔
      ∃ d ∈ e.dirs, pyStartsWith d "." = false ∧ d ≠ outName ∧
        c = ⟨d, d ++ "/index.html", "📁 Directory"⟩) ∧
    (∀ c : Card, c ∈ (create_directory_listing outName e).2 ↔
      ∃ f ∈ e.files, pyStartsWith f.name "." = false ∧ f.name ≠ outName ∧
        isListedSuffix f.name = true ∧
        c = ⟨f.name, pyStem f.name ++ ".html",
          "📄 " ++ pyUpper (pySuffix f.name) ++ " File"⟩) := by
  refine ⟨?_, ?_, ?_⟩
  · constructor
    · intro h
      obtain ⟨e2, _, hs2, hr⟩ := mem_generate_site_index.mp h
      rw [skipDir_eq_hasBad] at hs2
      rw [hr]
      exact hs2
    · intro hbad
      refine mem_generate_site_index.mpr ⟨e, he, ?_, rfl⟩
      rw [skipDir_eq_hasBad]
      exact hbad
  · intro c
    rw [create_directory_listing, mem_listingCards_fst]
    constructor
    · rintro ⟨it, hitmem, hit2, hh, hne, hc⟩
      rcases mem_sortedChildren.mp hitmem with ⟨_, hd⟩ | ⟨hfalse, _⟩
      · exact ⟨it.1, hd, hh, hne, hc⟩
      · rw [hit2] at hfalse
        exact absurd hfalse (by simp)
    · rintro ⟨d, hd, hh, hne, hc⟩
      exact ⟨(d, true), mem_sortedChildren.mpr (Or.inl ⟨rfl, hd⟩), rfl, hh, hne, hc⟩
  · intro c
    rw [create_directory_listing, mem_listingCards_snd]
    constructor
    · rintro ⟨it, hitmem, hit2, hh, hne, hsuf, hc⟩
      rcases mem_sortedChildren.mp hitmem with ⟨htrue, _⟩ | ⟨_, f, hfmem, hfname⟩
      · rw [hit2] at htrue
        exact absurd htrue (by simp)
      · refine ⟨f, hfmem, ?_, ?_, ?_, ?_⟩ <;> rw [hfname] <;> assumption
    · rintro ⟨f, hfmem, hh, hne, hsuf, hc⟩
      exact ⟨(f.name, false), mem_sortedChildren.mpr (Or.inr ⟨rfl, f, hfmem, rfl⟩),
        rfl, hh, hne, hsuf, hc⟩

theorem claim_C6_counterexample :
    Event.index ["a", "docs"] ∉
      generate_site "docs" true
        [⟨[], ["a"], []⟩, ⟨["a"], ["docs"], []⟩, ⟨["a", "docs"], [], [⟨"x.md", true⟩]⟩] ∧
    (⟨["a", "docs"], [], [⟨"x.md", true⟩]⟩ : WalkEntry) ∈
      [(⟨[], ["a"], []⟩ : WalkEntry), ⟨["a"], ["docs"], []⟩,
        ⟨["a", "docs"], [], [⟨"x.md", true⟩]⟩] ∧
    (["a", "docs"].any (fun s => pyStartsWith s ".")) = false ∧
    ["a", "docs"] ≠ ["docs"] ∧
    ["docs"].isPrefixOf ["a", "docs"] = false := by
  refine ⟨?_, by decide, by decide, by decide, by decide⟩
  decide

theorem claim_C6_witness :
    Event.index [] ∈
      generate_site "docs" true
        [⟨[], ["guide", ".git", "docs"], [⟨"README.md", true⟩, ⟨"notes.png", true⟩]⟩] ∧
    (⟨"guide", "guide/index.html", "📁 Directory"⟩ : Card) ∈
      (create_directory_listing "docs"
        ⟨[], ["guide", ".git", "docs"], [⟨"README.md", true⟩, ⟨"notes.png", true⟩]⟩).1 ∧
    (⟨"README.md", "README.html", "📄 .MD File"⟩ : Card) ∈
      (create_directory_listing "docs"
        ⟨[], ["guide", ".git", "docs"], [⟨"README.md", true⟩, ⟨"notes.png", true⟩]⟩).2 := by
  have h := claim_C6_amended "docs" true
    [⟨[], ["guide", ".git", "docs"], [⟨"README.md", true⟩, ⟨"notes.png", true⟩]⟩]
    ⟨[], ["guide", ".git", "docs"], [⟨"README.md", true⟩, ⟨"notes.png", true⟩]⟩
    (by decide)
  refine ⟨h.1.mpr (by decide), ?_, ?_⟩
  · exact (h.2.1 ⟨"guide", "guide/index.html", "📁 Directory"⟩).mpr
      ⟨"guide", by decide, by decide, by decide, by decide⟩
  · exact (h.2.2 ⟨"README.md", "README.html", "📄 .MD File"⟩).mpr
      ⟨⟨"README.md", true⟩, by decide, by decide, by decide, by decide, by decide⟩

/-- Claim C8: the `format_markdown` flag has no effect on the run's events
(and hence on its output artifacts), and every false-indicating literal
`false`, `0`, `no` — in any letter case, since `pyLower` maps each case
variant to the lowercase form — is accepted by the argument parsing and
parsed (to `false`) without error. -/
theorem claim_C8 :
    (∀ (outName : String) (fm1 fm2 : Bool) (wl : List WalkEntry),
      generate_site outName fm1 wl = generate_site outName fm2 wl) ∧
    (∀ s : String,
      pyLower s = "false" ∨ pyLower s = "0" ∨ pyLower s = "no" →
      parse_format_markdown s = false) := by
  constructor
  · intro outName fm1 fm2 wl
    rfl
  · intro s hs
    rw [parse_format_markdown]
    rcases hs with h | h | h <;> rw [h] <;> decide

theorem claim_C8_witness :
    generate_site "docs" false [⟨[], [], [⟨"a.md", true⟩]⟩] =
      generate_site "docs" true [⟨[], [], [⟨"a.md", true⟩]⟩] ∧
    parse_format_markdown "FALSE" = false ∧
    parse_format_markdown "No" = false ∧
    parse_format_markdown "0" = false :=
  ⟨claim_C8.1 "docs" false true [⟨[], [], [⟨"a.md", true⟩]⟩],
    claim_C8.2 "FALSE" (Or.inl (by decide)),
    claim_C8.2 "No" (Or.inr (Or.inr (by decide))),
    claim_C8.2 "0" (Or.inr (Or.inl (by decide)))⟩

theorem filterMap_fileAction (fm : Bool) (rel : List String) (f : FileEntry) :
    (fileAction fm rel f).filterMap eventPath =
      if !(pyStartsWith f.name ".") && isEligibleFile f.name && f.ok
      then [rel ++ [pyStem f.name ++ ".html"]] else [] := by
  unfold fileAction
  cases h1 : pyStartsWith f.name "." <;> cases h2 : isEligibleFile f.name <;>
    cases h3 : f.ok <;> simp [eventPath]

theorem filterMap_fileEvents (fm : Bool) (rel : List String) (files : List FileEntry) :
    (fileEvents fm rel files).filterMap eventPath =
      (files.filter
        (fun f => !(pyStartsWith f.name ".") && isEligibleFile f.name && f.ok)).map
        (fun f => rel ++ [pyStem f.name ++ ".html"]) := by
  induction files with
  | nil => simp [fileEvents]
  | cons f fs ih =>
    rw [fileEvents, List.flatMap_cons, List.filterMap_append]
    rw [show fs.flatMap (fileAction fm rel) = fileEvents fm rel fs from rfl, ih]
    rw [filterMap_fileAction, List.filter_cons]
    cases hc : (!(pyStartsWith f.name ".") && isEligibleFile f.name && f.ok) <;> simp

theorem filterMap_flatMap {α β γ : Type} (l : List α) (g : α → List β) (f : β → Option γ) :
    (l.flatMap g).filterMap f = l.flatMap (fun a => (g a).filterMap f) := by
  induction l with
  | nil => simp
  | cons a t ih => rw [List.flatMap_cons, List.filterMap_append, ih, List.flatMap_cons]

theorem sitePaths_eq (outName : String) (fm : Bool) (wl : List WalkEntry) :
    sitePaths outName fm wl =
      [".nojekyll"] :: wl.flatMap (fun e =>
        if skipDir outName e.rel then []
        else (pageStems e).map (fun s => e.rel ++ [s ++ ".html"]) ++
          [e.rel ++ ["index.html"]]) := by
  rw [sitePaths, generate_site]
  simp only [List.filterMap_cons, eventPath]
  rw [filterMap_flatMap]
  congr 1
  congr 1
  funext e
  rw [dirEvents]
  cases hs : skipDir outName e.rel
  · rw [if_neg Bool.false_ne_true, if_neg Bool.false_ne_true]
    rw [List.filterMap_append, filterMap_fileEvents]
    rw [pageStems, pageFiles, List.map_map]
    rfl
  · rw [if_pos rfl, if_pos rfl]
    rfl

theorem endsWith_append (s t : String) : pyEndsWith (s ++ t) t = true := by
  rw [pyEndsWith, String.data_append, List.isSuffixOf_iff_suffix]
  exact ⟨s.data, rfl⟩

theorem str_append_right_cancel {a b c : String} (h : a ++ c = b ++ c) : a = b := by
  apply string_ext
  have hd := congrArg String.data h
  rw [String.data_append, String.data_append] at hd
  exact List.append_cancel_right hd

theorem append_singleton_inj {α : Type} {r1 r2 : List α} {x y : α}
    (h : r1 ++ [x] = r2 ++ [y]) : r1 = r2 ∧ x = y := by
  have hl : r1.length = r2.length := by
    have hlen := congrArg List.length h
    simp at hlen
    omega
  have h2 := List.append_inj h hl
  refine ⟨h2.1, ?_⟩
  have h3 := h2.2
  simpa using h3

theorem mem_sitePaths_chunk {outName : String} {e : WalkEntry} {p : List String}
    (hp : p ∈ (if skipDir outName e.rel then ([] : List (List String))
      else (pageStems e).map (fun s => e.rel ++ [s ++ ".html"]) ++
        [e.rel ++ ["index.html"]])) :
    skipDir outName e.rel = false ∧
      ((∃ s ∈ pageStems e, p = e.rel ++ [s ++ ".html"]) ∨
        p = e.rel ++ ["index.html"]) := by
  cases hs : skipDir outName e.rel
  · rw [hs, if_neg Bool.false_ne_true] at hp
    refine ⟨rfl, ?_⟩
    rcases List.mem_append.mp hp with h | h
    · obtain ⟨s, hsmem, hsp⟩ := List.mem_map.mp h
      exact Or.inl ⟨s, hsmem, hsp.symm⟩
    · exact Or.inr (List.mem_singleton.mp h)
  · rw [hs, if_pos rfl] at hp
    exact absurd hp (List.not_mem_nil p)

theorem sitePaths_chunk_shape {outName : String} {e : WalkEntry} {p : List String}
    (hp : p ∈ (if skipDir outName e.rel then ([] : List (List String))
      else (pageStems e).map (fun s => e.rel ++ [s ++ ".html"]) ++
        [e.rel ++ ["index.html"]])) :
    ∃ x, p = e.rel ++ [x] ∧ pyEndsWith x ".html" = true := by
  rcases (mem_sitePaths_chunk hp).2 with ⟨s, _, hps⟩ | hps
  · exact ⟨s ++ ".html", hps, endsWith_append s ".html"⟩
  · exact ⟨"index.html", hps, by decide⟩

theorem nodup_sitePaths_chunk {outName : String} {e : WalkEntry}
    (hstem : (pageStems e).Nodup) (hidx : "index" ∉ pageStems e) :
    (if skipDir outName e.rel then ([] : List (List String))
      else (pageStems e).map (fun s => e.rel ++ [s ++ ".html"]) ++
        [e.rel ++ ["index.html"]]).Nodup := by
  cases hs : skipDir outName e.rel
  · rw [if_neg Bool.false_ne_true]
    rw [List.nodup_append]
    refine ⟨?_, List.nodup_singleton _, ?_⟩
    · refine List.Nodup.map ?_ hstem
      intro a b hab
      have h1 := (append_singleton_inj hab).2
      exact str_append_right_cancel h1
    · intro p hp1 hp2
      obtain ⟨s, hsmem, hsp⟩ := List.mem_map.mp hp1
      rw [List.mem_singleton] at hp2
      rw [← hsp] at hp2
      have h1 := (append_singleton_inj hp2).2
      have h2 : s ++ ".html" = "index" ++ ".html" := by
        rw [h1]
        decide
      have h3 := str_append_right_cancel h2
      rw [h3] at hsmem
      exact hidx hsmem
  · rw [if_pos rfl]
    exact List.nodup_nil

/-- Claim C1 (amended): in a run where every per-file step succeeds, over a
walk whose directories have distinct relative paths and, within each
directory, whose processed files have pairwise distinct base names none of
which is `index`, every visited directory yields exactly one `index.html`
at its mirrored path, every eligible non-hidden file yields exactly one
content page at the mirrored path with the extension replaced by `.html`,
and no generated page path is written more than once (the full output path
list has no duplicates). -/
theorem claim_C1_amended (outName : String) (fm : Bool) (wl : List WalkEntry)
    (hrels : (wl.map WalkEntry.rel).Nodup)
    (hstems : ∀ e ∈ wl, (pageStems e).Nodup)
    (hindex : ∀ e ∈ wl, "index" ∉ pageStems e)
    (hok : ∀ e ∈ wl, ∀ f ∈ e.files, f.ok = true) :
    (sitePaths outName fm wl).Nodup ∧
    (∀ e ∈ wl, skipDir outName e.rel = false →
      e.rel ++ ["index.html"] ∈ sitePaths outName fm wl ∧
      (∀ f ∈ e.files, pyStartsWith f.name "." = false → isEligibleFile f.name = true →
        e.rel ++ [pyStem f.name ++ ".html"] ∈ sitePaths outName fm wl)) := by
  rw [sitePaths_eq]
  constructor
  · rw [List.nodup_cons]
    constructor
    · intro hmem
      rw [List.mem_flatMap] at hmem
      obtain ⟨e, _, hp⟩ := hmem
      obtain ⟨x, hx, hxe⟩ := sitePaths_chunk_shape hp
      have h0 : ([] : List String) ++ [".nojekyll"] = e.rel ++ [x] := by
        simpa using hx
      have h1 := append_singleton_inj h0
      rw [← h1.2] at hxe
      exact absurd hxe (by decide)
    · rw [List.nodup_flatMap]
      constructor
      · intro e he
        exact nodup_sitePaths_chunk (hstems e he) (hindex e he)
      · rw [List.Nodup, List.pairwise_map] at hrels
        refine hrels.imp ?_
        intro a b hab p hpa hpb
        obtain ⟨xa, hxa, _⟩ := sitePaths_chunk_shape hpa
        obtain ⟨xb, hxb, _⟩ := sitePaths_chunk_shape hpb
        rw [hxa] at hxb
        exact hab (append_singleton_inj hxb).1
  · intro e he hskip
    have hif : (if skipDir outName e.rel then ([] : List (List String))
        else (pageStems e).map (fun s => e.rel ++ [s ++ ".html"]) ++
          [e.rel ++ ["index.html"]]) =
        (pageStems e).map (fun s => e.rel ++ [s ++ ".html"]) ++
          [e.rel ++ ["index.html"]] := by
      rw [hskip, if_neg Bool.false_ne_true]
    constructor
    · rw [List.mem_cons]
      right
      rw [List.mem_flatMap]
      refine ⟨e, he, ?_⟩
      rw [hif]
      exact List.mem_append.mpr (Or.inr (List.mem_singleton_self _))
    · intro f hf hfh hfe
      rw [List.mem_cons]
      right
      rw [List.mem_flatMap]
      refine ⟨e, he, ?_⟩
      rw [hif]
      refine List.mem_append.mpr (Or.inl ?_)
      rw [List.mem_map]
      refine ⟨pyStem f.name, ?_, rfl⟩
      rw [pageStems, List.mem_map]
      refine ⟨f, ?_, rfl⟩
      rw [pageFiles, List.mem_filter]
      refine ⟨hf, ?_⟩
      rw [hfh, hfe, hok e he f hf]
      rfl

theorem claim_C1_counterexample :
    (sitePaths "docs" true [⟨[], [], [⟨"foo.md", true⟩, ⟨"foo.txt", true⟩]⟩]).count
      ["foo.html"] = 2 ∧
    ¬ (sitePaths "docs" true [⟨[], [], [⟨"foo.md", true⟩, ⟨"foo.txt", true⟩]⟩]).Nodup := by
  constructor
  · decide
  · decide

theorem claim_C1_witness :
    (sitePaths "docs" true
      [⟨[], ["guide"], [⟨"README.md", true⟩]⟩, ⟨["guide"], [], [⟨"setup.md", true⟩]⟩]).Nodup ∧
    ["guide", "index.html"] ∈ sitePaths "docs" true
      [⟨[], ["guide"], [⟨"README.md", true⟩]⟩, ⟨["guide"], [], [⟨"setup.md", true⟩]⟩] ∧
    ["guide", "setup.html"] ∈ sitePaths "docs" true
      [⟨[], ["guide"], [⟨"README.md", true⟩]⟩, ⟨["guide"], [], [⟨"setup.md", true⟩]⟩] := by
  have h := claim_C1_amended "docs" true
    [⟨[], ["guide"], [⟨"README.md", true⟩]⟩, ⟨["guide"], [], [⟨"setup.md", true⟩]⟩]
    (by decide) (by decide) (by decide) (by decide)
  have h2 := h.2 ⟨["guide"], [], [⟨"setup.md", true⟩]⟩ (by decide) (by decide)
  exact ⟨h.1, h2.1, h2.2 ⟨"setup.md", true⟩ (by decide) (by decide) (by decide)⟩

theorem pyStartsWith_dot_iff (s : String) :
    pyStartsWith s "." = true ↔ ∃ t, s.data = '.' :: t := by
  rw [pyStartsWith]
  show List.isPrefixOf ['.'] s.data = true ↔ _
  cases hd : s.data with
  | nil => simp [List.isPrefixOf]
  | cons c t =>
    rw [List.isPrefixOf_cons₂]
    simp [beq_iff_eq]
    exact eq_comm

theorem eligible_ne_nil {f : String} (hel : isEligibleFile f = true) : f.data ≠ [] := by
  intro hnil
  have hl : pyLower f = "" := by
    apply string_ext
    simp [pyLower, hnil]
  simp only [isEligibleFile] at hel
  rw [hl] at hel
  exact absurd hel (by decide)

theorem listed_ne_nil {f : String} (hls : isListedSuffix f = true) : f.data ≠ [] := by
  intro hnil
  have hs : pySuffix f = "" := by
    simp [pySuffix, pyRfindDot, hnil]
  simp only [isListedSuffix] at hls
  rw [hs] at hls
  exact absurd hls (by decide)

theorem pyStem_data (s : String) :
    pyStem s = s ∨ ∃ i, 0 < i ∧ (pyStem s).data = s.data.take i := by
  unfold pyStem
  split
  next i heq =>
    split
    next hc =>
      rw [Bool.and_eq_true] at hc
      right
      exact ⟨i, by simpa using hc.1, rfl⟩
    next hc => exact Or.inl rfl
  next heq => exact Or.inl rfl

theorem pyStem_head {s : String} {c : Char} {t : List Char} (h : s.data = c :: t) :
    ∃ t2, (pyStem s).data = c :: t2 := by
  rcases pyStem_data s with he | ⟨i, hi, he⟩
  · exact ⟨t, by rw [he, h]⟩
  · rw [he, h]
    obtain ⟨j, hj⟩ : ∃ j, i = j + 1 := ⟨i - 1, by omega⟩
    rw [hj, List.take_succ_cons]
    exact ⟨t.take j, rfl⟩

theorem stem_html_not_hidden {s : String} (hne : s.data ≠ [])
    (hh : pyStartsWith s "." = false) :
    pyStartsWith (pyStem s ++ ".html") "." = false := by
  cases hd : s.data with
  | nil => exact absurd hd hne
  | cons c t =>
    have hc : c ≠ '.' := by
      intro hceq
      subst hceq
      have hsw := (pyStartsWith_dot_iff s).mpr ⟨t, hd⟩
      rw [hh] at hsw
      exact Bool.false_ne_true hsw
    obtain ⟨t2, ht2⟩ := pyStem_head hd
    cases hsw : pyStartsWith (pyStem s ++ ".html") "."
    · rfl
    · obtain ⟨t3, ht3⟩ := (pyStartsWith_dot_iff _).mp hsw
      rw [String.data_append, ht2] at ht3
      rw [List.cons_append] at ht3
      rw [List.cons.injEq] at ht3
      exact absurd ht3.1 hc

theorem pyStem_noslash {s : String} (h : ('/' : Char) ∉ s.data) :
    ('/' : Char) ∉ (pyStem s).data := by
  rcases pyStem_data s with he | ⟨i, _, he⟩
  · rw [he]; exact h
  · rw [he]
    intro hmem
    exact h (List.mem_of_mem_take hmem)

theorem crumbLink_succ (k : Nat) : crumbLink (k + 1) = "../" ++ crumbLink k := by
  cases k with
  | zero => decide
  | succ j =>
    rw [crumbLink, crumbLink]
    rw [if_pos (by omega), if_pos (by omega)]
    rw [joinSlash_replicate_succ]
    rw [String.append_assoc]

theorem splitSlash_crumbLink (k : Nat) :
    splitSlash (crumbLink k) = List.replicate k ".." ++ ["index.html"] := by
  induction k with
  | zero => decide
  | succ j ih =>
    rw [crumbLink_succ, splitSlash_up, ih, List.replicate_succ]
    rfl

theorem homeLink_eq {parts : List String} (h : parts ≠ []) :
    get_relative_path_to_root parts ++ "/index.html" = crumbLink parts.length := by
  have hp : 0 < parts.length := List.length_pos.mpr h
  rw [get_relative_path_to_root, if_neg h, if_pos hp, crumbLink, if_pos hp]

theorem mem_trailEntries_link {total : Nat} {ps : List String} {ent : String × String} :
    ∀ i, ent ∈ trailEntries total i ps → ∃ k, ent.2 = crumbLink k := by
  induction ps with
  | nil =>
    intro i h
    exact absurd h (List.not_mem_nil ent)
  | cons p rest ih =>
    intro i h
    rcases List.mem_cons.mp h with h | h
    · exact ⟨total - i - 1, by rw [h]⟩
    · exact ih (i + 1) h

theorem breadcrumb_link_segments {outName : String}
    (h1 : pyEndsWith outName ".html" = false)
    (rel : List String) (ent : String × String) (hent : ent ∈ breadcrumbTrail rel)
    (s : String) (hs : s ∈ splitSlash ent.2) :
    s = "." ∨ s = ".." ∨ (pyStartsWith s "." = false ∧ s ≠ outName) := by
  have hidx : ("index.html" : String) ≠ outName := by
    intro he
    rw [← he] at h1
    exact absurd h1 (by decide)
  have hcrumb : ∀ k, s ∈ splitSlash (crumbLink k) →
      s = "." ∨ s = ".." ∨ (pyStartsWith s "." = false ∧ s ≠ outName) := by
    intro k hk
    rw [splitSlash_crumbLink] at hk
    rcases List.mem_append.mp hk with hm | hm
    · exact Or.inr (Or.inl (List.eq_of_mem_replicate hm))
    · rw [List.mem_singleton] at hm
      subst hm
      exact Or.inr (Or.inr ⟨by decide, hidx⟩)
  rcases List.mem_cons.mp hent with h | h
  · have hlink : ent.2 = get_relative_path_to_root rel ++ "/index.html" := by rw [h]
    rcases Decidable.em (rel = []) with hnil | hnil
    · subst hnil
      rw [hlink] at hs
      have hsplit : splitSlash (get_relative_path_to_root [] ++ "/index.html") =
          [".", "index.html"] := by decide
      rw [hsplit] at hs
      rcases List.mem_cons.mp hs with hm | hm
      · exact Or.inl hm
      · rw [List.mem_singleton] at hm
        subst hm
        exact Or.inr (Or.inr ⟨by decide, hidx⟩)
    · rw [hlink, homeLink_eq hnil] at hs
      exact hcrumb rel.length hs
  · obtain ⟨k, hk⟩ := mem_trailEntries_link 0 h
    rw [hk] at hs
    exact hcrumb k hs

theorem segsAux_noslash_all {l : List Char} (hl : ('/' : Char) ∉ l) :
    ∀ acc, segsAux acc l = [String.mk (acc.reverse ++ l)] := by
  induction l with
  | nil => intro acc; simp [segsAux]
  | cons c t ih =>
    intro acc
    have hc : c ≠ '/' := fun h => hl (by rw [h]; exact List.mem_cons_self ..)
    have ht : ('/' : Char) ∉ t := fun h => hl (List.mem_cons_of_mem _ h)
    simp only [segsAux, if_neg hc]
    rw [ih ht (c :: acc)]
    simp

theorem segsAux_cut {l : List Char} (hl : ('/' : Char) ∉ l) :
    ∀ acc cs, segsAux acc (l ++ '/' :: cs) = String.mk (acc.reverse ++ l) :: segsAux [] cs := by
  induction l with
  | nil =>
    intro acc cs
    simp [segsAux]
  | cons c t ih =>
    intro acc cs
    have hc : c ≠ '/' := fun h => hl (by rw [h]; exact List.mem_cons_self ..)
    have ht : ('/' : Char) ∉ t := fun h => hl (List.mem_cons_of_mem _ h)
    rw [List.cons_append]
    simp only [segsAux, if_neg hc]
    rw [ih ht (c :: acc)]
    simp

theorem splitSlash_dir_card {d : String} (hd : ('/' : Char) ∉ d.data) :
    splitSlash (d ++ "/index.html") = [d, "index.html"] := by
  rw [splitSlash, String.data_append]
  rw [show ("/index.html").data = '/' :: ("index.html").data from rfl]
  rw [segsAux_cut hd []]
  have h2 : String.mk (List.reverse [] ++ d.data) = d := by cases d; simp
  rw [h2]
  rw [show segsAux [] ("index.html").data = ["index.html"] from by decide]

theorem splitSlash_single {x : String} (hx : ('/' : Char) ∉ x.data) :
    splitSlash x = [x] := by
  rw [splitSlash, segsAux_noslash_all hx []]
  cases x
  simp

theorem rel_segment_ok {outName : String} {rel : List String}
    (hskip : skipDir outName rel = false) {s : String} (hs : s ∈ rel) :
    pyStartsWith s "." = false ∧ s ≠ outName := by
  rw [skipDir_eq_hasBad] at hskip
  simp only [hasBadSegment] at hskip
  rw [List.any_eq_false] at hskip
  have hb := hskip s hs
  rw [Bool.not_eq_true, Bool.or_eq_false_iff] at hb
  exact ⟨hb.1, beq_eq_false_iff_ne.mp hb.2⟩

/-- Claim C4 (amended): in any run whose output directory name neither ends
in `.html` nor is `.nojekyll`, no generated output path contains a segment
equal to the output directory's name, and no segment beginning with the
hidden-file marker (other than the `.nojekyll` marker itself) appears in
any generated output path; and, apart from the pure relative-navigation
segments `.` and `..`, no segment of any link emitted in a directory
listing or breadcrumb begins with the hidden-file marker or equals the
output directory's name. -/
theorem claim_C4_amended (outName : String) (fm : Bool) (wl : List WalkEntry)
    (h1 : pyEndsWith outName ".html" = false)
    (h2 : outName ≠ ".nojekyll")
    (hnoslash : ∀ e ∈ wl, (∀ d ∈ e.dirs, ('/' : Char) ∉ d.data) ∧
      (∀ f ∈ e.files, ('/' : Char) ∉ f.name.data)) :
    (∀ p ∈ sitePaths outName fm wl, ∀ s ∈ p,
      s ≠ outName ∧ (pyStartsWith s "." = true → p = [".nojekyll"])) ∧
    (∀ e ∈ wl,
      (∀ c ∈ (create_directory_listing outName e).1, ∀ s ∈ splitSlash c.path,
        pyStartsWith s "." = false ∧ s ≠ outName) ∧
      (∀ c ∈ (create_directory_listing outName e).2, ∀ s ∈ splitSlash c.path,
        pyStartsWith s "." = false ∧ s ≠ outName) ∧
      (∀ ent ∈ breadcrumbTrail e.rel, ∀ s ∈ splitSlash ent.2,
        s = "." ∨ s = ".." ∨ (pyStartsWith s "." = false ∧ s ≠ outName))) := by
  have hlast : ∀ x : String, pyEndsWith x ".html" = true → x ≠ outName := by
    intro x hx he
    rw [he, h1] at hx
    exact Bool.false_ne_true hx
  constructor
  · intro p hp s hs
    rw [sitePaths_eq] at hp
    rcases List.mem_cons.mp hp with hp | hp
    · subst hp
      rw [List.mem_singleton] at hs
      subst hs
      exact ⟨fun he => h2 he.symm, fun _ => rfl⟩
    · rw [List.mem_flatMap] at hp
      obtain ⟨e, _, hpc⟩ := hp
      obtain ⟨hskip, hsh⟩ := mem_sitePaths_chunk hpc
      rcases hsh with ⟨st, hstmem, hpe⟩ | hpe
      · rw [pageStems, List.mem_map] at hstmem
        obtain ⟨f, hfmem, hst⟩ := hstmem
        rw [pageFiles, List.mem_filter] at hfmem
        obtain ⟨hf, hcond⟩ := hfmem
        rw [Bool.and_eq_true, Bool.and_eq_true] at hcond
        have hfh : pyStartsWith f.name "." = false := by
          have hx := hcond.1.1
          rwa [Bool.not_eq_true'] at hx
        have hfe : isEligibleFile f.name = true := hcond.1.2
        subst hpe
        rcases List.mem_append.mp hs with hsr | hsl
        · obtain ⟨hsw, hne⟩ := rel_segment_ok hskip hsr
          refine ⟨hne, fun hT => ?_⟩
          rw [hsw] at hT
          exact absurd hT Bool.false_ne_true
        · rw [List.mem_singleton] at hsl
          subst hsl
          constructor
          · rw [← hst]
            exact hlast _ (endsWith_append _ _)
          · intro hT
            rw [← hst, stem_html_not_hidden (eligible_ne_nil hfe) hfh] at hT
            exact absurd hT Bool.false_ne_true
      · subst hpe
        rcases List.mem_append.mp hs with hsr | hsl
        · obtain ⟨hsw, hne⟩ := rel_segment_ok hskip hsr
          refine ⟨hne, fun hT => ?_⟩
          rw [hsw] at hT
          exact absurd hT Bool.false_ne_true
        · rw [List.mem_singleton] at hsl
          subst hsl
          refine ⟨hlast _ (by decide), fun hT => ?_⟩
          exact absurd hT (by decide)
  · intro e he
    refine ⟨?_, ?_, ?_⟩
    · intro c hc s hs
      rw [create_directory_listing, mem_listingCards_fst] at hc
      obtain ⟨it, hitmem, hit2, hith, hitne, hceq⟩ := hc
      have hd : it.1 ∈ e.dirs := by
        rcases mem_sortedChildren.mp hitmem with ⟨_, hd⟩ | ⟨hfalse, _⟩
        · exact hd
        · rw [hit2] at hfalse
          exact absurd hfalse (by simp)
      have hnos : ('/' : Char) ∉ it.1.data := (hnoslash e he).1 it.1 hd
      have hpath : c.path = it.1 ++ "/index.html" := by rw [hceq]
      rw [hpath, splitSlash_dir_card hnos] at hs
      rcases List.mem_cons.mp hs with hm | hm
      · subst hm
        exact ⟨hith, hitne⟩
      · rw [List.mem_singleton] at hm
        subst hm
        exact ⟨by decide, hlast _ (by decide)⟩
    · intro c hc s hs
      rw [create_directory_listing, mem_listingCards_snd] at hc
      obtain ⟨it, hitmem, hit2, hith, hitne, hsuf, hceq⟩ := hc
      have hmemfiles : ∃ f ∈ e.files, f.name = it.1 := by
        rcases mem_sortedChildren.mp hitmem with ⟨htrue, _⟩ | ⟨_, hfs⟩
        · rw [hit2] at htrue
          exact absurd htrue (by simp)
        · exact hfs
      obtain ⟨f, hf, hfn⟩ := hmemfiles
      have hnos : ('/' : Char) ∉ it.1.data := by
        rw [← hfn]
        exact (hnoslash e he).2 f hf
      have hpath : c.path = pyStem it.1 ++ ".html" := by rw [hceq]
      have hnos2 : ('/' : Char) ∉ (pyStem it.1 ++ ".html").data := by
        rw [String.data_append]
        intro hmem
        rcases List.mem_append.mp hmem with hm | hm
        · exact pyStem_noslash hnos hm
        · exact absurd hm (by decide)
      rw [hpath, splitSlash_single hnos2, List.mem_singleton] at hs
      subst hs
      constructor
      · exact stem_html_not_hidden (listed_ne_nil hsuf) hith
      · exact hlast _ (endsWith_append _ _)
    · intro ent hent s hs
      exact breadcrumb_link_segments h1 e.rel ent hent s hs

theorem claim_C4_counterexample :
    ["index.html"] ∈ sitePaths "index.html" true [⟨[], [], []⟩] ∧
    "index.html" ∈ (["index.html"] : List String) ∧
    (breadcrumbTrail []).head? = some ("🏠 Home", "./index.html") ∧
    "." ∈ splitSlash "./index.html" ∧
    pyStartsWith "." "." = true := by
  refine ⟨?_, by decide, by decide, by decide, by decide⟩
  decide

theorem claim_C4_witness :
    (("guide" : String) ≠ "docs" ∧
      (pyStartsWith "guide" "." = true → ["guide", "index.html"] = [".nojekyll"])) ∧
    pyStartsWith "guide" "." = false ∧
    ("index.html" = "." ∨ "index.html" = ".." ∨
      (pyStartsWith "index.html" "." = false ∧ ("index.html" : String) ≠ "docs")) := by
  have h := claim_C4_amended "docs" true
    [⟨[], ["guide"], []⟩, ⟨["guide"], [], [⟨"setup.md", true⟩]⟩]
    (by decide) (by decide) (by decide)
  refine ⟨h.1 ["guide", "index.html"] (by decide) "guide" (by decide), ?_, ?_⟩
  · exact ((h.2 ⟨[], ["guide"], []⟩ (by decide)).1
      ⟨"guide", "guide/index.html", "📁 Directory"⟩ (by decide) "guide" (by decide)).1
  · exact (h.2 ⟨["guide"], [], [⟨"setup.md", true⟩]⟩ (by decide)).2.2
      ("guide", "index.html") (by decide) "index.html" (by decide)

theorem utf8_low {ig : Bool} {b : Nat} {rest : List Nat} (h : b < 128) :
    utf8Decode ig (b :: rest) = (utf8Decode ig rest).map (fun cs => b :: cs) := by
  rcases rest with _ | ⟨x, _ | ⟨y, _ | ⟨z, r⟩⟩⟩ <;> simp [utf8Decode, h]

theorem utf8_badstart {ig : Bool} {b : Nat} {rest : List Nat}
    (h1 : ¬ b < 128) (h2 : b < 194) :
    utf8Decode ig (b :: rest) = if ig then utf8Decode ig rest else none := by
  rcases rest with _ | ⟨x, _ | ⟨y, _ | ⟨z, r⟩⟩⟩ <;> simp [utf8Decode, h1, h2]

theorem utf8_two_ok {ig : Bool} {b b1 : Nat} {rest : List Nat}
    (h1 : ¬ b < 128) (h2 : ¬ b < 194) (h3 : b < 224) (hc : isCont b1 = true) :
    utf8Decode ig (b :: b1 :: rest) =
      (utf8Decode ig rest).map (fun cs => ((b - 192) * 64 + (b1 - 128)) :: cs) := by
  rcases rest with _ | ⟨x, _ | ⟨y, r⟩⟩ <;> simp [utf8Decode, h1, h2, h3, hc]

theorem utf8_two_bad {ig : Bool} {b b1 : Nat} {rest : List Nat}
    (h1 : ¬ b < 128) (h2 : ¬ b < 194) (h3 : b < 224) (hc : isCont b1 = false) :
    utf8Decode ig (b :: b1 :: rest) =
      if ig then utf8Decode ig (b1 :: rest) else none := by
  rcases rest with _ | ⟨x, _ | ⟨y, r⟩⟩ <;> simp [utf8Decode, h1, h2, h3, hc]

theorem utf8_three_ok {ig : Bool} {b b1 b2 : Nat} {rest : List Nat}
    (h1 : ¬ b < 128) (h2 : ¬ b < 194) (h3 : ¬ b < 224) (h4 : b < 240)
    (hc1 : cont3ok b b1 = true) (hc2 : isCont b2 = true) :
    utf8Decode ig (b :: b1 :: b2 :: rest) =
      (utf8Decode ig rest).map
        (fun cs => ((b - 224) * 4096 + (b1 - 128) * 64 + (b2 - 128)) :: cs) := by
  rcases rest with _ | ⟨x, r⟩ <;> simp [utf8Decode, h1, h2, h3, h4, hc1, hc2]

theorem utf8_three_bad2 {ig : Bool} {b b1 b2 : Nat} {rest : List Nat}
    (h1 : ¬ b < 128) (h2 : ¬ b < 194) (h3 : ¬ b < 224) (h4 : b < 240)
    (hc1 : cont3ok b b1 = true) (hc2 : isCont b2 = false) :
    utf8Decode ig (b :: b1 :: b2 :: rest) =
      if ig then utf8Decode ig (b2 :: rest) else none := by
  rcases rest with _ | ⟨x, r⟩ <;> simp [utf8Decode, h1, h2, h3, h4, hc1, hc2]

theorem utf8_three_bad1 {ig : Bool} {b b1 : Nat} {rest : List Nat}
    (h1 : ¬ b < 128) (h2 : ¬ b < 194) (h3 : ¬ b < 224) (h4 : b < 240)
    (hc1 : cont3ok b b1 = false) :
    utf8Decode ig (b :: b1 :: rest) =
      if ig then utf8Decode ig (b1 :: rest) else none := by
  rcases rest with _ | ⟨x, _ | ⟨y, r⟩⟩ <;> simp [utf8Decode, h1, h2, h3, h4, hc1]

theorem utf8_four_ok {ig : Bool} {b b1 b2 b3 : Nat} {rest : List Nat}
    (h1 : ¬ b < 128) (h2 : ¬ b < 194) (h3 : ¬ b < 224) (h4 : ¬ b < 240) (h5 : b < 245)
    (hc1 : cont4ok b b1 = true) (hc2 : isCont b2 = true) (hc3 : isCont b3 = true) :
    utf8Decode ig (b :: b1 :: b2 :: b3 :: rest) =
      (utf8Decode ig rest).map
        (fun cs => ((b - 240) * 262144 + (b1 - 128) * 4096 +
          (b2 - 128) * 64 + (b3 - 128)) :: cs) := by
  simp [utf8Decode, h1, h2, h3, h4, h5, hc1, hc2, hc3]

theorem utf8_four_bad3 {ig : Bool} {b b1 b2 b3 : Nat} {rest : List Nat}
    (h1 : ¬ b < 128) (h2 : ¬ b < 194) (h3 : ¬ b < 224) (h4 : ¬ b < 240) (h5 : b < 245)
    (hc1 : cont4ok b b1 = true) (hc2 : isCont b2 = true) (hc3 : isCont b3 = false) :
    utf8Decode ig (b :: b1 :: b2 :: b3 :: rest) =
      if ig then utf8Decode ig (b3 :: rest) else none := by
  simp [utf8Decode, h1, h2, h3, h4, h5, hc1, hc2, hc3]

theorem utf8_four_bad2 {ig : Bool} {b b1 b2 : Nat} {rest : List Nat}
    (h1 : ¬ b < 128) (h2 : ¬ b < 194) (h3 : ¬ b < 224) (h4 : ¬ b < 240) (h5 : b < 245)
    (hc1 : cont4ok b b1 = true) (hc2 : isCont b2 = false) :
    utf8Decode ig (b :: b1 :: b2 :: rest) =
      if ig then utf8Decode ig (b2 :: rest) else none := by
  rcases rest with _ | ⟨x, r⟩ <;> simp [utf8Decode, h1, h2, h3, h4, h5, hc1, hc2]

theorem utf8_four_bad1 {ig : Bool} {b b1 : Nat} {rest : List Nat}
    (h1 : ¬ b < 128) (h2 : ¬ b < 194) (h3 : ¬ b < 224) (h4 : ¬ b < 240) (h5 : b < 245)
    (hc1 : cont4ok b b1 = false) :
    utf8Decode ig (b :: b1 :: rest) =
      if ig then utf8Decode ig (b1 :: rest) else none := by
  rcases rest with _ | ⟨x, _ | ⟨y, r⟩⟩ <;> simp [utf8Decode, h1, h2, h3, h4, h5, hc1]

theorem utf8_high {ig : Bool} {b : Nat} {rest : List Nat}
    (h1 : ¬ b < 128) (h2 : ¬ b < 194) (h3 : ¬ b < 224) (h4 : ¬ b < 240) (h5 : ¬ b < 245) :
    utf8Decode ig (b :: rest) = if ig then utf8Decode ig rest else none := by
  rcases rest with _ | ⟨x, _ | ⟨y, _ | ⟨z, r⟩⟩⟩ <;> simp [utf8Decode, h1, h2, h3, h4, h5]


theorem utf8Decode_ignore_isSome : ∀ bs : List Nat, (utf8Decode true bs).isSome = true := by
  apply utf8Decode.induct true (fun bs => (utf8Decode true bs).isSome = true)
  case case1 => simp [utf8Decode]
  case case2 =>
    intro b rest h ih
    rw [utf8_low h]
    simpa [Option.isSome_map] using ih
  case case3 =>
    intro b rest h1 h2 _ ih
    rw [utf8_badstart h1 h2]
    simpa using ih
  case case4 =>
    intro b rest h1 h2 h
    exact absurd rfl h
  case case5 =>
    intro b h1 h2 h3 _
    simp [utf8Decode, h1, h2, h3]
  case case6 =>
    intro b h1 h2 h3 h
    exact absurd rfl h
  case case7 =>
    intro b h1 h2 h3 b1 rest hc ih
    rw [utf8_two_ok h1 h2 h3 hc]
    simpa [Option.isSome_map] using ih
  case case8 =>
    intro b h1 h2 h3 b1 rest hc _ ih
    rw [utf8_two_bad h1 h2 h3 (by simpa using hc)]
    simpa using ih
  case case9 =>
    intro b h1 h2 h3 b1 rest hc h
    exact absurd rfl h
  case case10 =>
    intro b h1 h2 h3 h4 _
    simp [utf8Decode, h1, h2, h3, h4]
  case case11 =>
    intro b h1 h2 h3 h4 h
    exact absurd rfl h
  case case12 =>
    intro b h1 h2 h3 h4 b1 hc _
    simp [utf8Decode, h1, h2, h3, h4, hc]
  case case13 =>
    intro b h1 h2 h3 h4 b1 hc h
    exact absurd rfl h
  case case14 =>
    intro b h1 h2 h3 h4 b1 hc1 b2 rest hc2 ih
    rw [utf8_three_ok h1 h2 h3 h4 hc1 hc2]
    simpa [Option.isSome_map] using ih
  case case15 =>
    intro b h1 h2 h3 h4 b1 hc1 b2 rest hc2 _ ih
    rw [utf8_three_bad2 h1 h2 h3 h4 hc1 (by simpa using hc2)]
    simpa using ih
  case case16 =>
    intro b h1 h2 h3 h4 b1 hc1 b2 rest hc2 h
    exact absurd rfl h
  case case17 =>
    intro b h1 h2 h3 h4 b1 rest hc1 _ ih
    rw [utf8_three_bad1 h1 h2 h3 h4 (by simpa using hc1)]
    simpa using ih
  case case18 =>
    intro b h1 h2 h3 h4 b1 rest hc1 h
    exact absurd rfl h
  case case19 =>
    intro b h1 h2 h3 h4 h5 _
    simp [utf8Decode, h1, h2, h3, h4, h5]
  case case20 =>
    intro b h1 h2 h3 h4 h5 h
    exact absurd rfl h
  case case21 =>
    intro b h1 h2 h3 h4 h5 b1 hc _
    simp [utf8Decode, h1, h2, h3, h4, h5, hc]
  case case22 =>
    intro b h1 h2 h3 h4 h5 b1 hc h
    exact absurd rfl h
  case case23 =>
    intro b h1 h2 h3 h4 h5 b1 hc1 b2 hc2 _
    simp [utf8Decode, h1, h2, h3, h4, h5, hc1, hc2]
  case case24 =>
    intro b h1 h2 h3 h4 h5 b1 hc1 b2 hc2 h
    exact absurd rfl h
  case case25 =>
    intro b h1 h2 h3 h4 h5 b1 hc1 b2 hc2 b3 rest hc3 ih
    rw [utf8_four_ok h1 h2 h3 h4 h5 hc1 hc2 hc3]
    simpa [Option.isSome_map] using ih
  case case26 =>
    intro b h1 h2 h3 h4 h5 b1 hc1 b2 hc2 b3 rest hc3 _ ih
    rw [utf8_four_bad3 h1 h2 h3 h4 h5 hc1 hc2 (by simpa using hc3)]
    simpa using ih
  case case27 =>
    intro b h1 h2 h3 h4 h5 b1 hc1 b2 hc2 b3 rest hc3 h
    exact absurd rfl h
  case case28 =>
    intro b h1 h2 h3 h4 h5 b1 hc1 b2 rest hc2 _ ih
    rw [utf8_four_bad2 h1 h2 h3 h4 h5 hc1 (by simpa using hc2)]
    simpa using ih
  case case29 =>
    intro b h1 h2 h3 h4 h5 b1 hc1 b2 rest hc2 h
    exact absurd rfl h
  case case30 =>
    intro b h1 h2 h3 h4 h5 b1 rest hc1 _ ih
    rw [utf8_four_bad1 h1 h2 h3 h4 h5 (by simpa using hc1)]
    simpa using ih
  case case31 =>
    intro b h1 h2 h3 h4 h5 b1 rest hc1 h
    exact absurd rfl h
  case case32 =>
    intro b rest h1 h2 h3 h4 h5 _ ih
    rw [utf8_high h1 h2 h3 h4 h5]
    simpa using ih
  case case33 =>
    intro b rest h1 h2 h3 h4 h5 h
    exact absurd rfl h

theorem utf8Decode_strict_agree :
    ∀ bs cs, utf8Decode false bs = some cs → utf8Decode true bs = some cs := by
  apply utf8Decode.induct false
    (fun bs => ∀ cs, utf8Decode false bs = some cs → utf8Decode true bs = some cs)
  case case1 =>
    intro cs hsome
    simp [utf8Decode] at hsome ⊢
    exact hsome
  case case2 =>
    intro b rest h ih cs hsome
    rw [utf8_low h, Option.map_eq_some'] at hsome
    obtain ⟨cs0, hcs0, hf⟩ := hsome
    rw [utf8_low h, ih cs0 hcs0, Option.map_some']
    rw [hf]
  case case3 =>
    intro b rest h1 h2 hig
    exact absurd hig Bool.false_ne_true
  case case4 =>
    intro b rest h1 h2 _ cs hsome
    rw [utf8_badstart h1 h2] at hsome
    simp at hsome
  case case5 =>
    intro b h1 h2 h3 hig
    exact absurd hig Bool.false_ne_true
  case case6 =>
    intro b h1 h2 h3 _ cs hsome
    simp [utf8Decode, h1, h2, h3] at hsome
  case case7 =>
    intro b h1 h2 h3 b1 rest hc ih cs hsome
    rw [utf8_two_ok h1 h2 h3 hc, Option.map_eq_some'] at hsome
    obtain ⟨cs0, hcs0, hf⟩ := hsome
    rw [utf8_two_ok h1 h2 h3 hc, ih cs0 hcs0, Option.map_some']
    rw [hf]
  case case8 =>
    intro b h1 h2 h3 b1 rest hc hig
    exact absurd hig Bool.false_ne_true
  case case9 =>
    intro b h1 h2 h3 b1 rest hc _ cs hsome
    rw [utf8_two_bad h1 h2 h3 (by simpa using hc)] at hsome
    simp at hsome
  case case10 =>
    intro b h1 h2 h3 h4 hig
    exact absurd hig Bool.false_ne_true
  case case11 =>
    intro b h1 h2 h3 h4 _ cs hsome
    simp [utf8Decode, h1, h2, h3, h4] at hsome
  case case12 =>
    intro b h1 h2 h3 h4 b1 hc hig
    exact absurd hig Bool.false_ne_true
  case case13 =>
    intro b h1 h2 h3 h4 b1 hc _ cs hsome
    simp [utf8Decode, h1, h2, h3, h4, hc] at hsome
  case case14 =>
    intro b h1 h2 h3 h4 b1 hc1 b2 rest hc2 ih cs hsome
    rw [utf8_three_ok h1 h2 h3 h4 hc1 hc2, Option.map_eq_some'] at hsome
    obtain ⟨cs0, hcs0, hf⟩ := hsome
    rw [utf8_three_ok h1 h2 h3 h4 hc1 hc2, ih cs0 hcs0, Option.map_some']
    rw [hf]
  case case15 =>
    intro b h1 h2 h3 h4 b1 hc1 b2 rest hc2 hig
    exact absurd hig Bool.false_ne_true
  case case16 =>
    intro b h1 h2 h3 h4 b1 hc1 b2 rest hc2 _ cs hsome
    rw [utf8_three_bad2 h1 h2 h3 h4 hc1 (by simpa using hc2)] at hsome
    simp at hsome
  case case17 =>
    intro b h1 h2 h3 h4 b1 rest hc1 hig
    exact absurd hig Bool.false_ne_true
  case case18 =>
    intro b h1 h2 h3 h4 b1 rest hc1 _ cs hsome
    rw [utf8_three_bad1 h1 h2 h3 h4 (by simpa using hc1)] at hsome
    simp at hsome
  case case19 =>
    intro b h1 h2 h3 h4 h5 hig
    exact absurd hig Bool.false_ne_true
  case case20 =>
    intro b h1 h2 h3 h4 h5 _ cs hsome
    simp [utf8Decode, h1, h2, h3, h4, h5] at hsome
  case case21 =>
    intro b h1 h2 h3 h4 h5 b1 hc hig
    exact absurd hig Bool.false_ne_true
  case case22 =>
    intro b h1 h2 h3 h4 h5 b1 hc _ cs hsome
    simp [utf8Decode, h1, h2, h3, h4, h5, hc] at hsome
  case case23 =>
    intro b h1 h2 h3 h4 h5 b1 hc1 b2 hc2 hig
    exact absurd hig Bool.false_ne_true
  case case24 =>
    intro b h1 h2 h3 h4 h5 b1 hc1 b2 hc2 _ cs hsome
    simp [utf8Decode, h1, h2, h3, h4, h5, hc1, hc2] at hsome
  case case25 =>
    intro b h1 h2 h3 h4 h5 b1 hc1 b2 hc2 b3 rest hc3 ih cs hsome
    rw [utf8_four_ok h1 h2 h3 h4 h5 hc1 hc2 hc3, Option.map_eq_some'] at hsome
    obtain ⟨cs0, hcs0, hf⟩ := hsome
    rw [utf8_four_ok h1 h2 h3 h4 h5 hc1 hc2 hc3, ih cs0 hcs0, Option.map_some']
    rw [hf]
  case case26 =>
    intro b h1 h2 h3 h4 h5 b1 hc1 b2 hc2 b3 rest hc3 hig
    exact absurd hig Bool.false_ne_true
  case case27 =>
    intro b h1 h2 h3 h4 h5 b1 hc1 b2 hc2 b3 rest hc3 _ cs hsome
    rw [utf8_four_bad3 h1 h2 h3 h4 h5 hc1 hc2 (by simpa using hc3)] at hsome
    simp at hsome
  case case28 =>
    intro b h1 h2 h3 h4 h5 b1 hc1 b2 rest hc2 hig
    exact absurd hig Bool.false_ne_true
  case case29 =>
    intro b h1 h2 h3 h4 h5 b1 hc1 b2 rest hc2 _ cs hsome
    rw [utf8_four_bad2 h1 h2 h3 h4 h5 hc1 (by simpa using hc2)] at hsome
    simp at hsome
  case case30 =>
    intro b h1 h2 h3 h4 h5 b1 rest hc1 hig
    exact absurd hig Bool.false_ne_true
  case case31 =>
    intro b h1 h2 h3 h4 h5 b1 rest hc1 _ cs hsome
    rw [utf8_four_bad1 h1 h2 h3 h4 h5 (by simpa using hc1)] at hsome
    simp at hsome
  case case32 =>
    intro b rest h1 h2 h3 h4 h5 hig
    exact absurd hig Bool.false_ne_true
  case case33 =>
    intro b rest h1 h2 h3 h4 h5 _ cs hsome
    rw [utf8_high h1 h2 h3 h4 h5] at hsome
    simp at hsome

/-- Claim C9: the read step of `process_markdown` decodes the file's bytes
as UTF-8 with errors ignored: the ignore-mode decoder is total (never
raises, so the per-file error branch is never entered because of a decode
failure), it agrees with the strict decoder on every valid input, and on a
file whose content is not valid UTF-8 — such as `h 0xFF i`, which the
strict decoder rejects — the undecodable byte is silently dropped and the
remaining text is still produced. -/
theorem claim_C9 :
    (∀ bytes : List Nat, ∃ cs, utf8Decode true bytes = some cs) ∧
    (∀ bytes cs, utf8Decode false bytes = some cs → utf8Decode true bytes = some cs) ∧
    utf8Decode false [104, 255, 105] = none ∧
    process_markdown_text [104, 255, 105] = [104, 105] := by
  refine ⟨?_, utf8Decode_strict_agree, by decide, by decide⟩
  intro bytes
  exact Option.isSome_iff_exists.mp (utf8Decode_ignore_isSome bytes)

theorem claim_C9_witness :
    (∃ cs, utf8Decode true [104, 255, 105] = some cs) ∧
    utf8Decode true [104, 195, 169, 105] = some [104, 233, 105] :=
  ⟨claim_C9.1 [104, 255, 105],
    claim_C9.2.1 [104, 195, 169, 105] [104, 233, 105] (by decide)⟩

theorem pySuffix_cases (s : String) :
    pySuffix s = "" ∨ ∃ i, (pySuffix s).data = s.data.drop i := by
  unfold pySuffix
  split
  next i heq =>
    split
    next hc => exact Or.inr ⟨i, rfl⟩
    next hc => exact Or.inl rfl
  next heq => exact Or.inl rfl

theorem suffix_lower_endsWith {name suf : String}
    (h : pyLower (pySuffix name) = suf) (hne : suf ≠ "") :
    pyEndsWith (pyLower name) suf = true := by
  rcases pySuffix_cases name with hs | ⟨i, hs⟩
  · rw [hs, show pyLower "" = "" from rfl] at h
    exact absurd h.symm hne
  · have hd : suf.data = (pyLower name).data.drop i := by
      rw [← h]
      show (pySuffix name).data.map Char.toLower = (name.data.map Char.toLower).drop i
      rw [hs]
      exact List.map_drop Char.toLower name.data i
    rw [pyEndsWith, List.isSuffixOf_iff_suffix, hd]
    exact List.drop_suffix i _

/-- Claim C10: extension eligibility is case-insensitive — a (non-hidden,
not output-directory-named) file whose pathlib suffix is any letter-case
variant of `.md` or `.txt` passes the walker's eligibility test, so a
content page is generated for it, and passes the listing builder's suffix
test, so a card is shown for it. -/
theorem claim_C10 (outName : String) (name : String)
    (hh : pyStartsWith name "." = false) (hne : name ≠ outName)
    (hsuf : pyLower (pySuffix name) = ".md" ∨ pyLower (pySuffix name) = ".txt") :
    isEligibleFile name = true ∧
    isListedSuffix name = true ∧
    (∀ (fm : Bool) (wl : List WalkEntry) (e : WalkEntry), e ∈ wl →
      skipDir outName e.rel = false → ∀ ok : Bool, (⟨name, ok⟩ : FileEntry) ∈ e.files →
      ok = true → Event.page e.rel name ∈ generate_site outName fm wl) ∧
    (∀ e : WalkEntry, (∃ f ∈ e.files, f.name = name) →
      ∃ c ∈ (create_directory_listing outName e).2, c.name = name) := by
  have hel : isEligibleFile name = true := by
    rw [isEligibleFile]
    rcases hsuf with h | h
    · rw [suffix_lower_endsWith h (by decide)]
      rfl
    · rw [suffix_lower_endsWith h (by decide)]
      simp
  have hls : isListedSuffix name = true := by
    rw [isListedSuffix]
    rcases hsuf with h | h <;> rw [h] <;> simp
  refine ⟨hel, hls, ?_, ?_⟩
  · intro fm wl e he hskip ok hf hok
    subst hok
    exact mem_generate_site_page.mpr ⟨e, he, hskip, rfl, ⟨name, true⟩, hf, rfl, hh, hel, rfl⟩
  · intro e hex
    obtain ⟨f, hfmem, hfname⟩ := hex
    refine ⟨⟨name, pyStem name ++ ".html", "📄 " ++ pyUpper (pySuffix name) ++ " File"⟩, ?_, rfl⟩
    rw [create_directory_listing, mem_listingCards_snd]
    refine ⟨(name, false), ?_, rfl, hh, hne, hls, rfl⟩
    rw [mem_sortedChildren]
    exact Or.inr ⟨rfl, f, hfmem, hfname⟩

theorem claim_C10_witness :
    isEligibleFile "README.MD" = true ∧
    isListedSuffix "README.MD" = true ∧
    Event.page [] "README.MD" ∈
      generate_site "docs" true [⟨[], [], [⟨"README.MD", true⟩]⟩] ∧
    (∃ c ∈ (create_directory_listing "docs" ⟨[], [], [⟨"README.MD", true⟩]⟩).2,
      c.name = "README.MD") := by
  have h := claim_C10 "docs" "README.MD" (by decide) (by decide) (Or.inl (by decide))
  exact ⟨h.1, h.2.1,
    h.2.2.1 true [⟨[], [], [⟨"README.MD", true⟩]⟩] ⟨[], [], [⟨"README.MD", true⟩]⟩
      (by decide) (by decide) true (by decide) rfl,
    h.2.2.2 ⟨[], [], [⟨"README.MD", true⟩]⟩ ⟨⟨"README.MD", true⟩, by decide, rfl⟩⟩
